import Mathlib

/-!
Verification of the schema-inference core (src/schema.rs, src/process.rs,
src/main.rs).  `HashMap<String, Schema>` is modelled as a key-sorted
association list (the canonical representative of the unordered map, whose
iteration order is irrelevant to every operation performed on it), and
`HashSet<String>` as a `Finset String`.  The `u32` bitflags `TypeMask` is
modelled as a structure with one `Bool` per declared flag.  The recursive
`Option`/list fields of `Schema` are realised by mutually inductive types
(`OptSchema`, `OptProps`, `Props`) so that all recursion stays structural
and computable.  `Schema::merge`, whose recursion pattern is not structural
in either argument, is written with an explicit fuel parameter together
with a proved congruence lemma showing the result does not depend on the
fuel once the fuel dominates the size of the arguments; the exported
wrapper instantiates the fuel with that bound.
-/

set_option maxHeartbeats 1600000

namespace SchemaSpec

/-- Runtime configuration (`Config` in src/schema.rs). -/
structure Config where
  max_object_keys : Nat
  max_string_set_values : Nat
  max_string_set_variant_length : Nat
  consider_string_set : Bool
  consider_array_items : Bool
  max_array_items : Nat
  chunk_size : Nat
  stats : Bool
deriving DecidableEq

/-- The `TypeMask` bitflags of src/schema.rs: one Boolean per declared bit. -/
structure TypeMask where
  string : Bool := false
  boolean : Bool := false
  null : Bool := false
  array : Bool := false
  object : Bool := false
  i64 : Bool := false
  u64 : Bool := false
  f64 : Bool := false
  absent : Bool := false
  largeObj : Bool := false
  stringSet : Bool := false
deriving DecidableEq

/-- Bitwise union, `self.type_mask |= other.type_mask`. -/
def TypeMask.or (a b : TypeMask) : TypeMask :=
  ⟨a.string || b.string, a.boolean || b.boolean, a.null || b.null, a.array || b.array,
   a.object || b.object, a.i64 || b.i64, a.u64 || b.u64, a.f64 || b.f64,
   a.absent || b.absent, a.largeObj || b.largeObj, a.stringSet || b.stringSet⟩

mutual

/-- The `Schema` node of src/schema.rs. -/
inductive Schema where
  | mk (type_mask : TypeMask)
       (object_properties : OptProps)
       (string_values : Option (Finset String))
       (array_items : OptSchema)

/-- `Option<Box<Schema>>` (the `array_items` field). -/
inductive OptSchema where
  | none
  | some (s : Schema)

/-- `Option<HashMap<String, Schema>>` (the `object_properties` field). -/
inductive OptProps where
  | none
  | some (l : Props)

/-- A `HashMap<String, Schema>` in canonical key-sorted association-list form. -/
inductive Props where
  | nil
  | cons (key : String) (value : Schema) (tail : Props)

end

mutual

/-- Structural size measure used as the fuel bound for `Schema::merge`. -/
def Schema.size : Schema → Nat
  | .mk _ p _ a => 1 + p.size + a.size

/-- Size of an optional child schema. -/
def OptSchema.size : OptSchema → Nat
  | .none => 0
  | .some s => 1 + s.size

/-- Size of an optional property map. -/
def OptProps.size : OptProps → Nat
  | .none => 0
  | .some l => 1 + l.size

/-- Size of a property map. -/
def Props.size : Props → Nat
  | .nil => 0
  | .cons _ v t => 1 + v.size + t.size

end

/-- List-style induction principle for `Props` (the `induction` tactic does
not directly handle mutually inductive types). -/
def Props.indOn {motive : Props → Prop} (l : Props) (nil : motive .nil)
    (cons : ∀ k v t, motive t → motive (.cons k v t)) : motive l :=
  match l with
  | .nil => nil
  | .cons k v t => cons k v t (Props.indOn t nil cons)

/-- Kernel-computable lexicographic comparison of character lists (by code
point), the key order of the canonical property-map form.  The source
`HashMap` is unordered, so the choice of canonical order is free; the
library order on `String` is defined by well-founded recursion, which the
kernel cannot evaluate, hence this structural equivalent. -/
def listLtB : List Char → List Char → Bool
  | [], [] => false
  | [], _ :: _ => true
  | _ :: _, [] => false
  | c :: cs, d :: ds =>
    if c.toNat < d.toNat then true
    else if d.toNat < c.toNat then false
    else listLtB cs ds

/-- Kernel-computable strict total order on property keys. -/
def keyLtB (a b : String) : Bool := listLtB a.data b.data

/-- Projection: `type_mask` field. -/
def Schema.type_mask : Schema → TypeMask
  | .mk m _ _ _ => m

/-- Projection: `object_properties` field. -/
def Schema.object_properties : Schema → OptProps
  | .mk _ p _ _ => p

/-- Projection: `string_values` field. -/
def Schema.string_values : Schema → Option (Finset String)
  | .mk _ _ v _ => v

/-- Projection: `array_items` field. -/
def Schema.array_items : Schema → OptSchema
  | .mk _ _ _ a => a

/-- `Schema::new(mask)`. -/
def Schema.new (mask : TypeMask) : Schema :=
  .mk mask .none none .none

/-- Number of keys of a property map (`HashMap::len`). -/
def Props.length : Props → Nat
  | .nil => 0
  | .cons _ _ t => t.length + 1

/-- Map lookup (`HashMap::get` / `remove` hit). -/
def Props.lookup (k : String) : Props → Option Schema
  | .nil => Option.none
  | .cons k' v t => if k' = k then Option.some v else t.lookup k

/-- All keys of the map are greater than `k` (strict). -/
def Props.allGt (k : String) : Props → Prop
  | .nil => True
  | .cons k' _ t => keyLtB k k' = true ∧ t.allGt k

/-- The canonical-form invariant: keys strictly increasing. -/
def Props.sorted : Props → Prop
  | .nil => True
  | .cons k _ t => t.allGt k ∧ t.sorted

/-- Setting the ABSENT flag on a node, `type_mask |= TypeMask::ABSENT`. -/
def setAbsent : Schema → Schema
  | .mk m p v a => .mk { m with absent := true } p v a

/-- Values of a property map all get the ABSENT flag (the `(None, Some)` /
`(Some, None)` arms of the property-merge `match`). -/
def mapAbsent : Props → Props
  | .nil => .nil
  | .cons k v t => .cons k (setAbsent v) (mapAbsent t)

/-- The string-set / type-mask phase of `Schema::merge` (src/schema.rs lines
159-194): returns the updated `type_mask` and `string_values` of `self`.
Note two faithful quirks of the source: in both string-set branches the mask
is *not* unioned with `other`'s, and the trailing unconditional write
`self.string_values = string_values_set` makes the overflow branch keep the
original left-hand set and makes the `(None, Some)` branch end with `None`. -/
def step1 (c : Config) (m1 m2 : TypeMask) (v1 v2 : Option (Finset String)) :
    TypeMask × Option (Finset String) :=
  if c.consider_string_set then
    if (m1.stringSet && m2.string) || (m1.string && m2.stringSet) then
      ({ m1 with stringSet := false, string := true }, none)
    else if m1.stringSet && m2.stringSet then
      match v1, v2 with
      | some A, some B =>
          if c.max_string_set_values < A.card + B.card then
            ({ m1 with stringSet := false, string := true }, some A)
          else
            (m1, some (A ∪ B))
      | some A, none => (m1, some A)
      | none, _ => (m1, none)
    else
      (m1.or m2, v1)
  else
    (m1.or m2, v1)

/-- The large-object cutoff guard of `Schema::merge` (lines 219-228):
`self.object_properties` is populated and holds more than
`max_object_keys` keys. -/
def propsOver (p : OptProps) (n : Nat) : Bool :=
  match p with
  | .some l => n < l.length
  | .none => false

mutual

/-- `Schema::merge` (src/schema.rs lines 159-270), fuel-indexed. -/
def mergeF : Nat → Config → Schema → Schema → Schema
  | 0, _, s, _ => s
  | f + 1, c, .mk m1 p1 v1 a1, .mk m2 p2 v2 a2 =>
    let st := step1 c m1 m2 v1 v2
    let m := st.1
    let a :=
      if c.consider_array_items && m.array && m2.array then
        match a1, a2 with
        | .some x, .some y => .some (mergeF f c x y)
        | .none, .some y => .some y
        | .some x, .none => .some x
        | .none, .none => .none
      else a1
    if m.object && propsOver p1 c.max_object_keys then
      .mk { m with object := false, largeObj := true } .none st.2 a
    else
      .mk m (mergeOPropsF f c p1 p2) st.2 a

/-- The property-merge `match` of `Schema::merge` (lines 230-269), fuel-indexed. -/
def mergeOPropsF : Nat → Config → OptProps → OptProps → OptProps
  | 0, _, p1, _ => p1
  | _ + 1, _, .none, .none => .none
  | _ + 1, _, .none, .some l2 => .some (mapAbsent l2)
  | _ + 1, _, .some l1, .none => .some (mapAbsent l1)
  | f + 1, c, .some l1, .some l2 => .some (mergePropsF f c l1 l2)

/-- Pointwise merge of two property maps in canonical (key-sorted) form:
keys present on one side only get ABSENT, shared keys merge recursively.
This is the `(Some, Some)` arm of the property-merge `match` (lines
231-254), fuel-indexed. -/
def mergePropsF : Nat → Config → Props → Props → Props
  | 0, _, l1, _ => l1
  | _ + 1, _, .nil, l2 => mapAbsent l2
  | _ + 1, _, .cons k1 x t1, .nil => mapAbsent (.cons k1 x t1)
  | f + 1, c, .cons k1 x t1, .cons k2 y t2 =>
    if keyLtB k1 k2 then .cons k1 (setAbsent x) (mergePropsF f c t1 (.cons k2 y t2))
    else if keyLtB k2 k1 then .cons k2 (setAbsent y) (mergePropsF f c (.cons k1 x t1) t2)
    else .cons k1 (mergeF f c x y) (mergePropsF f c t1 t2)

end

/-- `Schema::merge` with the fuel instantiated at a sufficient bound. -/
def Schema.merge (c : Config) (s o : Schema) : Schema :=
  mergeF (s.size + o.size + 1) c s o

/-- Canonical-form property-map merge with sufficient fuel. -/
def mergeProps (c : Config) (l1 l2 : Props) : Props :=
  mergePropsF (l1.size + l2.size + 1) c l1 l2

/-- The property-merge `match` with sufficient fuel. -/
def mergeOProps (c : Config) (p1 p2 : OptProps) : OptProps :=
  mergeOPropsF (p1.size + p2.size + 1) c p1 p2

mutual

/-- A parsed JSON value (`simd_json::BorrowedValue`).  The numeric payloads
are kept where the source can observe them; the `f64` payload is dropped
because no operation of the core inspects it (only the constructor matters). -/
inductive J where
  | null
  | bool (b : Bool)
  | i64 (n : Int)
  | u64 (n : Nat)
  | f64
  | str (s : String)
  | arr (elems : JList)
  | obj (kvs : JPairs)

/-- The element list of a JSON array. -/
inductive JList where
  | nil
  | cons (head : J) (tail : JList)

/-- The key/value pairs of a JSON object, in document order. -/
inductive JPairs where
  | nil
  | cons (key : String) (value : J) (tail : JPairs)

end

/-- Insertion into a canonical key-sorted property map; an existing binding
of the same key is replaced (`HashMap::collect` keeps the last occurrence). -/
def insertSorted (k : String) (v : Schema) : Props → Props
  | .nil => .cons k v .nil
  | .cons k' v' t =>
    if keyLtB k k' then .cons k v (.cons k' v' t)
    else if keyLtB k' k then .cons k' v' (insertSorted k v t)
    else .cons k v t

mutual

/-- `infer_type` (src/schema.rs lines 80-147).  String length is the UTF-8
byte length, as in Rust's `str::len`. -/
def inferType (c : Config) : J → Schema
  | .i64 _ => Schema.new { i64 := true }
  | .u64 _ => Schema.new { u64 := true }
  | .f64 => Schema.new { f64 := true }
  | .bool _ => Schema.new { boolean := true }
  | .null => Schema.new { null := true }
  | .str s =>
    if !c.consider_string_set then Schema.new { string := true }
    else if c.max_string_set_variant_length < s.utf8ByteSize then
      Schema.new { string := true }
    else .mk { stringSet := true } .none (some {s}) .none
  | .arr xs =>
    if !c.consider_array_items then Schema.new { array := true }
    else .mk { array := true } .none none (inferItems c c.max_array_items xs .none)
  | .obj kvs => .mk { object := true } (.some (inferProps c kvs .nil)) none .none

/-- The item-schema fold of the array case of `infer_type`: at most
`max_array_items` leading elements are inferred and merged left-to-right. -/
def inferItems (c : Config) : Nat → JList → OptSchema → OptSchema
  | _, .nil, acc => acc
  | 0, .cons _ _, acc => acc
  | n + 1, .cons x t, acc =>
    inferItems c n t
      (match acc with
       | .none => .some (inferType c x)
       | .some ex => .some (Schema.merge c ex (inferType c x)))

/-- The property-map build of the object case of `infer_type`. -/
def inferProps (c : Config) : JPairs → Props → Props
  | .nil, acc => acc
  | .cons k v t, acc => inferProps c t (insertSorted k (inferType c v) acc)

end

/-- One record folded into a worker accumulator (the processor closure in
`process_file`, src/main.rs lines 21-33). -/
def accLine (c : Config) (st : Nat × Option Schema) (j : J) : Nat × Option Schema :=
  (st.1 + 1,
   match st.2 with
   | some s => some (Schema.merge c s (inferType c j))
   | none => some (inferType c j))

/-- A chunk of parse results folded into a fresh accumulator
(`process_chunk_with_state`, src/process.rs lines 143-161): `none` entries
are malformed lines, skipped without touching the accumulator. -/
def accChunk (c : Config) (lines : List (Option J)) : Nat × Option Schema :=
  lines.foldl
    (fun st ol =>
      match ol with
      | some j => accLine c st j
      | none => st)
    (0, none)

/-- The accumulator reducer of `process_file` (src/main.rs lines 34-42).
The `(None, None)` arm is `unreachable!()`, i.e. a panic, modelled as
`none`. -/
def reduceAcc (c : Config) (x y : Nat × Option Schema) : Option (Nat × Option Schema) :=
  match x, y with
  | (n1, some a), (n2, some b) => some (n1 + n2, some (Schema.merge c a b))
  | (n1, some a), (n2, none) => some (n1 + n2, some a)
  | (n1, none), (n2, some b) => some (n1 + n2, some b)
  | _, _ => none

/-- `process_file` (src/main.rs lines 16-66) over already-chunked parse
results: per-chunk accumulators are reduced against the `Default::default()`
identity `(0, None)` of the parallel reduction, and the final
`.expect("No schema found")` (a panic when no schema was produced) is
modelled as `none`. -/
def processFile (c : Config) (chunks : List (List (Option J))) : Option (Nat × Schema) :=
  match chunks.foldl
      (fun acc ch => acc.bind (fun a => reduceAcc c a (accChunk c ch)))
      (some (0, none)) with
  | some (n, some s) => some (n, s)
  | _ => none

/-- The forward scan for a newline of `find_chunk_boundaries`
(src/process.rs lines 60-63), fuel-indexed: first index `j' ≥ j` with
`buf[j'] = b'\n'`, or the end of the buffer. -/
def scanNlF : Nat → List Nat → Nat → Nat
  | 0, _, j => j
  | f + 1, buf, j =>
    if j < buf.length then
      if buf.getD j 0 == 10 then j else scanNlF f buf (j + 1)
    else j

/-- The newline scan with sufficient fuel. -/
def scanNl (buf : List Nat) (j : Nat) : Nat :=
  scanNlF (buf.length + 1) buf j

/-- The cursor loop of `find_chunk_boundaries` (src/process.rs lines 46-75),
fuel-indexed. -/
def chunkGo : Nat → List Nat → Nat → Nat → List (Nat × Nat)
  | 0, _, _, _ => []
  | f + 1, buf, csz, current =>
    if current < buf.length then
      let tent := min (current + csz) buf.length
      if buf.length ≤ tent then [(current, buf.length)]
      else
        let ae := scanNl buf tent
        if buf.length ≤ ae then [(current, buf.length)]
        else (current, ae + 1) :: chunkGo f buf csz (ae + 1)
    else []

/-- `find_chunk_boundaries` over a byte buffer (the memory map is modelled
as the list of its byte values). -/
def findChunkBoundaries (buf : List Nat) (csz : Nat) : List (Nat × Nat) :=
  chunkGo (buf.length + 1) buf csz 0

/-- The boundary list chains exactly from `lo` to `hi`: each range starts
where the previous one ended, ranges are non-empty, and the last one ends
at `hi`.  This captures "partition `[lo, hi)` with no gaps and no
overlaps". -/
def chainB : Nat → Nat → List (Nat × Nat) → Bool
  | lo, hi, [] => lo == hi
  | lo, hi, (s, e) :: t => (s == lo) && decide (lo < e) && decide (e ≤ hi) && chainB e hi t

/-- Every range end is the buffer length or lies one past a newline byte. -/
def endsOk (buf : List Nat) (bs : List (Nat × Nat)) : Bool :=
  bs.all (fun p => p.2 == buf.length || (buf.getD (p.2 - 1) 0 == 10))

/-- Value membership in a property map. -/
def Props.hasVal : Props → Schema → Prop
  | .nil, _ => False
  | .cons _ v t, x => x = v ∨ t.hasVal x

mutual

/-- Decidable check of the spec invariants I1-I4 plus the representation
invariants that `array_items` only accompanies the ARRAY tag (spec §3.1)
and that property maps are in canonical sorted form. -/
def Schema.validB (maxk maxv maxlen : Nat) : Schema → Bool
  | .mk m p v a =>
    !(m.largeObj && m.object) &&
    !(m.stringSet && m.string) &&
    (match v with
     | none => true
     | some A =>
       m.stringSet && decide (A.card ≤ maxv) &&
         decide (∀ s ∈ A, s.utf8ByteSize ≤ maxlen)) &&
    OptProps.validB maxk maxv maxlen m.object p &&
    OptSchema.validB maxk maxv maxlen m.array a

/-- Validity of an optional property map: populated only with OBJECT set,
within the key bound, sorted, and with valid entries. -/
def OptProps.validB (maxk maxv maxlen : Nat) (objBit : Bool) : OptProps → Bool
  | .none => true
  | .some l => objBit && decide (l.length ≤ maxk) && l.sortedB && Props.validB maxk maxv maxlen l

/-- Validity of an optional array-item schema: populated only with ARRAY set. -/
def OptSchema.validB (maxk maxv maxlen : Nat) (arrBit : Bool) : OptSchema → Bool
  | .none => true
  | .some s => arrBit && s.validB maxk maxv maxlen

/-- Validity of every entry of a property map. -/
def Props.validB (maxk maxv maxlen : Nat) : Props → Bool
  | .nil => true
  | .cons _ v t => v.validB maxk maxv maxlen && t.validB maxk maxv maxlen

/-- Decidable canonical-sortedness of a property map. -/
def Props.sortedB : Props → Bool
  | .nil => true
  | .cons k _ t => t.allGtB k && t.sortedB

/-- Decidable "all keys greater than `k`". -/
def Props.allGtB (k : String) : Props → Bool
  | .nil => true
  | .cons k' _ t => keyLtB k k' && t.allGtB k

end

/-- Well-formedness hypotheses under which `Schema::merge` is an honest
mask-union merge: no STRING_SET tag and no `string_values` payload anywhere
(so the M2 special branches never engage), canonically sorted property maps
of at most `n` keys, and `array_items` only below an ARRAY tag and only
when `consider_array_items` is on. -/
inductive MWf (cai : Bool) (n : Nat) : Schema → Prop where
  | node : ∀ m p v a,
      m.stringSet = false →
      v = none →
      (∀ l, p = .some l → l.sorted) →
      (∀ l, p = .some l → l.length ≤ n) →
      (∀ l x, p = .some l → l.hasVal x → MWf cai n x) →
      (∀ x, a = .some x → cai = true) →
      (∀ x, a = .some x → m.array = true) →
      (∀ x, a = .some x → MWf cai n x) →
      MWf cai n (.mk m p v a)

/-- Well-formedness hypotheses for the object invariants: no LARGE_OBJECT
tag anywhere, property maps only below an OBJECT tag and with at most `n`
keys. -/
inductive OWf (n : Nat) : Schema → Prop where
  | node : ∀ m p v a,
      m.largeObj = false →
      (∀ l, p = .some l → m.object = true) →
      (∀ l, p = .some l → l.length ≤ n) →
      (∀ l x, p = .some l → l.hasVal x → OWf n x) →
      (∀ x, a = .some x → OWf n x) →
      OWf n (.mk m p v a)

/-- Invariants I1 and I2 of the spec, at every node: LARGE_OBJECT and
OBJECT are mutually exclusive, and a populated `object_properties` implies
OBJECT is set and at most `maxk` keys. -/
inductive InvI12 (maxk : Nat) : Schema → Prop where
  | node : ∀ m p v a,
      (m.largeObj = false ∨ m.object = false) →
      (∀ l, p = .some l → m.object = true) →
      (∀ l, p = .some l → l.length ≤ maxk) →
      (∀ l x, p = .some l → l.hasVal x → InvI12 maxk x) →
      (∀ x, a = .some x → InvI12 maxk x) →
      InvI12 maxk (.mk m p v a)

/-- The four-way match combining two optional array-item schemas
(the array block of `Schema::merge`, lines 196-217), at the wrapper level. -/
def combineItems (c : Config) : OptSchema → OptSchema → OptSchema
  | .some x, .some y => .some (Schema.merge c x y)
  | .none, .some y => .some y
  | .some x, .none => .some x
  | .none, .none => .none

/-- Default configuration (the clap defaults of src/main.rs). -/
def cfgDef : Config := ⟨200, 100, 50, false, false, 10, 16777216, false⟩

/-- Default configuration with `--enums` (`consider_string_set`) on. -/
def cfgSS : Config := ⟨200, 100, 50, true, false, 10, 16777216, false⟩

/-- `--enums` with `max_string_set_values = 1`. -/
def cfgSS1 : Config := ⟨200, 1, 50, true, false, 10, 16777216, false⟩

/-- Default configuration with `max_object_keys = 1`. -/
def cfgK1 : Config := ⟨1, 100, 50, false, false, 10, 16777216, false⟩

/-- A STRING_SET schema holding exactly the string `"x"`. -/
def sSetX : Schema := .mk { stringSet := true } .none (some {"x"}) .none

/-- A schema with the STRING and NULL tags. -/
def sStrNull : Schema := .mk { string := true, null := true } .none none .none

/-- `{NULL}`. -/
def sNull : Schema := Schema.new { null := true }

/-- `{I64}`. -/
def sI64 : Schema := Schema.new { i64 := true }

/-- `{STRING}`. -/
def sStr : Schema := Schema.new { string := true }

/-- An object schema with the single property `a`. -/
def sObjA : Schema := .mk { object := true } (.some (.cons "a" sNull .nil)) none .none

/-- An object schema with the single property `b`. -/
def sObjB : Schema := .mk { object := true } (.some (.cons "b" sNull .nil)) none .none

/-- An object schema with the single property `c`. -/
def sObjC : Schema := .mk { object := true } (.some (.cons "c" sNull .nil)) none .none

/-- An object schema with the two properties `a`, `b`. -/
def sObjAB : Schema :=
  .mk { object := true } (.some (.cons "a" sNull (.cons "b" sNull .nil))) none .none

/-- `{LARGE_OBJECT}` (the opaque large-object marker). -/
def sLO : Schema := Schema.new { largeObj := true }

/-- An object schema with an empty property map (inferred from `{}`). -/
def sObjEmpty : Schema := .mk { object := true } (.some .nil) none .none

/-- Number of keys of an optional property map (0 when absent). -/
def OptProps.keyCount : OptProps → Nat
  | .none => 0
  | .some l => l.length

/-- The pointwise action of the property merge on one key: present on both
sides merges, present on one side gets ABSENT. -/
def combine2 (c : Config) : Option Schema → Option Schema → Option Schema
  | some x, some y => some (Schema.merge c x y)
  | some x, none => some (setAbsent x)
  | none, some y => some (setAbsent y)
  | none, none => none

theorem mergeF_congrAll : ∀ f : Nat,
    (∀ g c s o, Schema.size s + Schema.size o < f → Schema.size s + Schema.size o < g →
      mergeF f c s o = mergeF g c s o) ∧
    (∀ g c p1 p2, OptProps.size p1 + OptProps.size p2 < f →
      OptProps.size p1 + OptProps.size p2 < g →
      mergeOPropsF f c p1 p2 = mergeOPropsF g c p1 p2) ∧
    (∀ g c l1 l2, Props.size l1 + Props.size l2 < f → Props.size l1 + Props.size l2 < g →
      mergePropsF f c l1 l2 = mergePropsF g c l1 l2) := by
  intro f
  induction f with
  | zero => refine ⟨?_, ?_, ?_⟩ <;> intro g c x y h1 h2 <;> omega
  | succ f ih =>
    obtain ⟨ihM, ihO, ihP⟩ := ih
    refine ⟨?_, ?_, ?_⟩
    · intro g c s o h1 h2
      obtain ⟨m1, p1, v1, a1⟩ := s
      obtain ⟨m2, p2, v2, a2⟩ := o
      obtain ⟨g, rfl⟩ : ∃ g', g = g' + 1 := ⟨g - 1, by omega⟩
      simp only [Schema.size] at h1 h2
      have hOP : mergeOPropsF f c p1 p2 = mergeOPropsF g c p1 p2 :=
        ihO g c p1 p2 (by omega) (by omega)
      cases a1 with
      | none => cases a2 <;> simp only [mergeF, hOP]
      | some x =>
        cases a2 with
        | none => simp only [mergeF, hOP]
        | some y =>
          simp only [OptSchema.size] at h1 h2
          have hM : mergeF f c x y = mergeF g c x y := ihM g c x y (by omega) (by omega)
          simp only [mergeF, hOP, hM]
    · intro g c p1 p2 h1 h2
      obtain ⟨g, rfl⟩ : ∃ g', g = g' + 1 := ⟨g - 1, by omega⟩
      cases p1 with
      | none => cases p2 <;> rfl
      | some l1 =>
        cases p2 with
        | none => rfl
        | some l2 =>
          simp only [OptProps.size] at h1 h2
          simp only [mergeOPropsF]
          exact congrArg _ (ihP g c l1 l2 (by omega) (by omega))
    · intro g c l1 l2 h1 h2
      obtain ⟨g, rfl⟩ : ∃ g', g = g' + 1 := ⟨g - 1, by omega⟩
      cases l1 with
      | nil => rfl
      | cons k1 x t1 =>
        cases l2 with
        | nil => rfl
        | cons k2 y t2 =>
          simp only [Props.size] at h1 h2
          simp only [mergePropsF]
          by_cases hk : keyLtB k1 k2 = true
          · simp only [if_pos hk]
            rw [ihP g c t1 (.cons k2 y t2) (by simp only [Props.size]; omega)
              (by simp only [Props.size]; omega)]
          · simp only [if_neg hk]
            by_cases hk2 : keyLtB k2 k1 = true
            · simp only [if_pos hk2]
              rw [ihP g c (.cons k1 x t1) t2 (by simp only [Props.size]; omega)
                (by simp only [Props.size]; omega)]
            · simp only [if_neg hk2]
              rw [ihM g c x y (by omega) (by omega), ihP g c t1 t2 (by omega) (by omega)]

theorem mergeF_eq_merge (f : Nat) (c : Config) (s o : Schema)
    (h : Schema.size s + Schema.size o < f) : mergeF f c s o = Schema.merge c s o :=
  (mergeF_congrAll f).1 (Schema.size s + Schema.size o + 1) c s o h (by omega)

theorem mergeOPropsF_eq (f : Nat) (c : Config) (p1 p2 : OptProps)
    (h : OptProps.size p1 + OptProps.size p2 < f) :
    mergeOPropsF f c p1 p2 = mergeOProps c p1 p2 :=
  (mergeF_congrAll f).2.1 (OptProps.size p1 + OptProps.size p2 + 1) c p1 p2 h (by omega)

theorem mergePropsF_eq (f : Nat) (c : Config) (l1 l2 : Props)
    (h : Props.size l1 + Props.size l2 < f) :
    mergePropsF f c l1 l2 = mergeProps c l1 l2 :=
  (mergeF_congrAll f).2.2 (Props.size l1 + Props.size l2 + 1) c l1 l2 h (by omega)

/-- Fuel-free unfolding of `Schema::merge` on two nodes. -/
theorem merge_mk (c : Config) (m1 : TypeMask) (p1 : OptProps) (v1 : Option (Finset String))
    (a1 : OptSchema) (m2 : TypeMask) (p2 : OptProps) (v2 : Option (Finset String))
    (a2 : OptSchema) :
    Schema.merge c (.mk m1 p1 v1 a1) (.mk m2 p2 v2 a2) =
      (if (step1 c m1 m2 v1 v2).1.object && propsOver p1 c.max_object_keys then
        Schema.mk { (step1 c m1 m2 v1 v2).1 with object := false, largeObj := true }
          .none (step1 c m1 m2 v1 v2).2
          (if c.consider_array_items && (step1 c m1 m2 v1 v2).1.array && m2.array then
            combineItems c a1 a2
          else a1)
      else
        Schema.mk (step1 c m1 m2 v1 v2).1 (mergeOProps c p1 p2) (step1 c m1 m2 v1 v2).2
          (if c.consider_array_items && (step1 c m1 m2 v1 v2).1.array && m2.array then
            combineItems c a1 a2
          else a1)) := by
  show mergeF _ c _ _ = _
  simp only [mergeF]
  rw [mergeOPropsF_eq _ c p1 p2 (by simp only [Schema.size]; omega)]
  cases a1 with
  | none => cases a2 <;> rfl
  | some x =>
    cases a2 with
    | none => rfl
    | some y =>
      dsimp only
      rw [mergeF_eq_merge _ c x y (by simp only [Schema.size, OptSchema.size]; omega)]
      rfl

theorem mergeOProps_none_none (c : Config) : mergeOProps c .none .none = .none := rfl

theorem mergeOProps_none_some (c : Config) (l2 : Props) :
    mergeOProps c .none (.some l2) = .some (mapAbsent l2) := rfl

theorem mergeOProps_some_none (c : Config) (l1 : Props) :
    mergeOProps c (.some l1) .none = .some (mapAbsent l1) := rfl

theorem mergeOProps_some_some (c : Config) (l1 l2 : Props) :
    mergeOProps c (.some l1) (.some l2) = .some (mergeProps c l1 l2) := by
  show OptProps.some (mergePropsF _ c l1 l2) = _
  rw [mergePropsF_eq _ c l1 l2 (by simp only [OptProps.size]; omega)]

theorem mergeProps_nil (c : Config) (l2 : Props) : mergeProps c .nil l2 = mapAbsent l2 := rfl

theorem mergeProps_cons_nil (c : Config) (k1 : String) (x : Schema) (t1 : Props) :
    mergeProps c (.cons k1 x t1) .nil = mapAbsent (.cons k1 x t1) := rfl

theorem mergeProps_cons_cons (c : Config) (k1 : String) (x : Schema) (t1 : Props)
    (k2 : String) (y : Schema) (t2 : Props) :
    mergeProps c (.cons k1 x t1) (.cons k2 y t2) =
      if keyLtB k1 k2 then .cons k1 (setAbsent x) (mergeProps c t1 (.cons k2 y t2))
      else if keyLtB k2 k1 then .cons k2 (setAbsent y) (mergeProps c (.cons k1 x t1) t2)
      else .cons k1 (Schema.merge c x y) (mergeProps c t1 t2) := by
  show mergePropsF _ c _ _ = _
  simp only [mergePropsF]
  by_cases h : keyLtB k1 k2 = true
  · simp only [if_pos h]
    rw [mergePropsF_eq _ c t1 (.cons k2 y t2) (by simp only [Props.size]; omega)]
  · simp only [if_neg h]
    by_cases h2 : keyLtB k2 k1 = true
    · simp only [if_pos h2]
      rw [mergePropsF_eq _ c (.cons k1 x t1) t2 (by simp only [Props.size]; omega)]
    · simp only [if_neg h2]
      rw [mergeF_eq_merge _ c x y (by simp only [Props.size]; omega),
        mergePropsF_eq _ c t1 t2 (by simp only [Props.size]; omega)]

theorem TypeMask.or_comm (a b : TypeMask) : a.or b = b.or a := by
  simp only [TypeMask.or, Bool.or_comm]

theorem TypeMask.or_assoc (a b d : TypeMask) : (a.or b).or d = a.or (b.or d) := by
  simp only [TypeMask.or, Bool.or_assoc]

/-- Projection simp lemmas for the mask union. -/
theorem TypeMask.or_string (a b : TypeMask) : (a.or b).string = (a.string || b.string) := rfl

theorem TypeMask.or_array (a b : TypeMask) : (a.or b).array = (a.array || b.array) := rfl

theorem TypeMask.or_object (a b : TypeMask) : (a.or b).object = (a.object || b.object) := rfl

theorem TypeMask.or_largeObj (a b : TypeMask) : (a.or b).largeObj = (a.largeObj || b.largeObj) := rfl

theorem TypeMask.or_stringSet (a b : TypeMask) :
    (a.or b).stringSet = (a.stringSet || b.stringSet) := rfl

/-- When neither side carries the STRING_SET tag, the string-set phase is a
plain mask union keeping `self`'s `string_values` — under any configuration. -/
theorem step1_no_ss (c : Config) (m1 m2 : TypeMask) (v1 v2 : Option (Finset String))
    (h1 : m1.stringSet = false) (h2 : m2.stringSet = false) :
    step1 c m1 m2 v1 v2 = (m1.or m2, v1) := by
  simp only [step1, h1, h2, Bool.false_and, Bool.and_false, Bool.or_false, Bool.false_or,
    if_false]
  split <;> rfl

/-- With `consider_string_set` off, the string-set phase is a plain mask
union keeping `self`'s `string_values`, whatever the masks and payloads. -/
theorem step1_no_cfg (c : Config) (m1 m2 : TypeMask) (v1 v2 : Option (Finset String))
    (h : c.consider_string_set = false) :
    step1 c m1 m2 v1 v2 = (m1.or m2, v1) := by
  simp only [step1, h, Bool.false_eq_true, if_false]

theorem setAbsent_mk (m : TypeMask) (p : OptProps) (v : Option (Finset String)) (a : OptSchema) :
    setAbsent (.mk m p v a) = .mk { m with absent := true } p v a := rfl

theorem setAbsent_setAbsent (s : Schema) : setAbsent (setAbsent s) = setAbsent s := by
  obtain ⟨m, p, v, a⟩ := s
  rfl

theorem charEq_of_toNat {c d : Char} (h : c.toNat = d.toNat) : c = d := by
  apply Char.ext
  unfold Char.toNat at h
  exact UInt32.toNat.inj h

theorem stringEq_of_data {a b : String} (h : a.data = b.data) : a = b := by
  cases a
  cases b
  exact congrArg String.mk h

theorem listLtB_irrefl : ∀ l : List Char, listLtB l l = false := by
  intro l
  induction l with
  | nil => rfl
  | cons c cs ih => simp [listLtB, ih]

theorem listLtB_asymm : ∀ {l1 l2 : List Char}, listLtB l1 l2 = true → listLtB l2 l1 = false := by
  intro l1
  induction l1 with
  | nil =>
    intro l2 h
    cases l2 with
    | nil => exact absurd h (by simp [listLtB])
    | cons d ds => rfl
  | cons c cs ih =>
    intro l2 h
    cases l2 with
    | nil => simp [listLtB] at h
    | cons d ds =>
      simp only [listLtB] at h ⊢
      by_cases h1 : c.toNat < d.toNat
      · rw [if_neg (by omega : ¬ d.toNat < c.toNat), if_pos h1]
      · rw [if_neg h1] at h
        by_cases h2 : d.toNat < c.toNat
        · rw [if_pos h2] at h
          exact absurd h (by simp)
        · rw [if_neg h2] at h
          rw [if_neg h2, if_neg h1]
          exact ih h

theorem listLtB_trans : ∀ {l1 l2 l3 : List Char}, listLtB l1 l2 = true →
    listLtB l2 l3 = true → listLtB l1 l3 = true := by
  intro l1
  induction l1 with
  | nil =>
    intro l2 l3 h1 h2
    cases l3 with
    | nil => cases l2 <;> simp [listLtB] at h2
    | cons e es => rfl
  | cons c cs ih =>
    intro l2 l3 h1 h2
    cases l2 with
    | nil => simp [listLtB] at h1
    | cons d ds =>
      cases l3 with
      | nil => simp [listLtB] at h2
      | cons e es =>
        simp only [listLtB] at h1 h2 ⊢
        by_cases hcd : c.toNat < d.toNat
        · by_cases hde : d.toNat < e.toNat
          · rw [if_pos (by omega : c.toNat < e.toNat)]
          · rw [if_neg hde] at h2
            by_cases hed : e.toNat < d.toNat
            · rw [if_pos hed] at h2
              exact absurd h2 (by simp)
            · rw [if_pos (by omega : c.toNat < e.toNat)]
        · rw [if_neg hcd] at h1
          by_cases hdc : d.toNat < c.toNat
          · rw [if_pos hdc] at h1
            exact absurd h1 (by simp)
          · rw [if_neg hdc] at h1
            by_cases hde : d.toNat < e.toNat
            · rw [if_pos (by omega : c.toNat < e.toNat)]
            · rw [if_neg hde] at h2
              by_cases hed : e.toNat < d.toNat
              · rw [if_pos hed] at h2
                exact absurd h2 (by simp)
              · rw [if_neg hed] at h2
                rw [if_neg (by omega : ¬ c.toNat < e.toNat),
                  if_neg (by omega : ¬ e.toNat < c.toNat)]
                exact ih h1 h2

theorem listLtB_antisymm : ∀ {l1 l2 : List Char}, listLtB l1 l2 = false →
    listLtB l2 l1 = false → l1 = l2 := by
  intro l1
  induction l1 with
  | nil =>
    intro l2 h1 h2
    cases l2 with
    | nil => rfl
    | cons d ds => simp [listLtB] at h1
  | cons c cs ih =>
    intro l2 h1 h2
    cases l2 with
    | nil => simp [listLtB] at h2
    | cons d ds =>
      simp only [listLtB] at h1 h2
      by_cases hcd : c.toNat < d.toNat
      · rw [if_pos hcd] at h1
        exact absurd h1 (by simp)
      · rw [if_neg hcd] at h1
        by_cases hdc : d.toNat < c.toNat
        · rw [if_pos hdc] at h2
          exact absurd h2 (by simp)
        · rw [if_neg hdc] at h1
          rw [if_neg hdc, if_neg hcd] at h2
          have hc : c = d := charEq_of_toNat (by omega)
          rw [hc, ih h1 h2]

theorem keyLt_asymmP {a b : String} (h : keyLtB a b = true) : ¬ keyLtB b a = true := by
  unfold keyLtB at h ⊢
  rw [listLtB_asymm h]
  exact Bool.false_ne_true

theorem keyLt_irreflP (a : String) : ¬ keyLtB a a = true := by
  unfold keyLtB
  rw [listLtB_irrefl]
  exact Bool.false_ne_true

theorem keyLt_transP {a b d : String} (h1 : keyLtB a b = true) (h2 : keyLtB b d = true) :
    keyLtB a d = true := listLtB_trans h1 h2

theorem keyLt_eqP {a b : String} (h1 : ¬ keyLtB a b = true) (h2 : ¬ keyLtB b a = true) :
    a = b :=
  stringEq_of_data
    (listLtB_antisymm (Bool.eq_false_iff.mpr h1) (Bool.eq_false_iff.mpr h2))

theorem keyLt_neP {a b : String} (h : keyLtB a b = true) : a ≠ b := by
  intro he
  subst he
  exact keyLt_irreflP a h

theorem keyLt_tri (a b : String) : keyLtB a b = true ∨
    (¬ keyLtB a b = true ∧ ¬ keyLtB b a = true ∧ a = b) ∨ keyLtB b a = true := by
  cases h1 : keyLtB a b with
  | true => exact Or.inl rfl
  | false =>
    cases h2 : keyLtB b a with
    | true => exact Or.inr (Or.inr rfl)
    | false =>
      exact Or.inr (Or.inl ⟨by simp, by simp,
        keyLt_eqP (by simp [h1]) (by simp [h2])⟩)

theorem Props.lookup_hasVal {k : String} {l : Props} {v : Schema}
    (h : l.lookup k = Option.some v) : l.hasVal v := by
  induction l using Props.indOn with
  | nil => simp [Props.lookup] at h
  | cons k' v' t ih =>
    simp only [Props.lookup] at h
    by_cases hk : k' = k
    · simp only [if_pos hk] at h
      exact Or.inl (Option.some.inj h).symm
    · exact Or.inr (ih (by simpa [if_neg hk] using h))

theorem Props.hasVal_size {l : Props} {x : Schema} (h : l.hasVal x) :
    Schema.size x < Props.size l := by
  induction l using Props.indOn with
  | nil => exact absurd h id
  | cons k v t ih =>
    rcases h with rfl | h
    · simp only [Props.size]; omega
    · have := ih h
      simp only [Props.size]; omega

theorem Props.allGt_lookup {k : String} {l : Props} (h : l.allGt k) :
    l.lookup k = Option.none := by
  induction l using Props.indOn with
  | nil => rfl
  | cons k' v t ih =>
    obtain ⟨hlt, h⟩ := h
    simp only [Props.lookup, if_neg (Ne.symm (keyLt_neP hlt)), ih h]

theorem Props.allGt_of_lt {k k' : String} {l : Props} (hk : keyLtB k k' = true)
    (h : l.allGt k') : l.allGt k := by
  induction l using Props.indOn with
  | nil => trivial
  | cons k2 v t ih => exact ⟨keyLt_transP hk h.1, ih h.2⟩

theorem Props.lookup_none_of_lt {k k2 : String} {y : Schema} {t2 : Props}
    (hk : keyLtB k k2 = true)
    (hs : (Props.cons k2 y t2).sorted) : (Props.cons k2 y t2).lookup k = Option.none := by
  exact Props.allGt_lookup ⟨hk, Props.allGt_of_lt hk hs.1⟩

theorem mapAbsent_lookup (l : Props) (k : String) :
    (mapAbsent l).lookup k = (l.lookup k).map setAbsent := by
  induction l using Props.indOn with
  | nil => rfl
  | cons k' v t ih =>
    simp only [mapAbsent, Props.lookup]
    by_cases hk : k' = k
    · simp [if_pos hk]
    · simp [if_neg hk, ih]

theorem mapAbsent_length (l : Props) : (mapAbsent l).length = l.length := by
  induction l using Props.indOn with
  | nil => rfl
  | cons k v t ih => simp only [mapAbsent, Props.length, ih]

theorem mapAbsent_allGt {l : Props} {k : String} (h : l.allGt k) : (mapAbsent l).allGt k := by
  induction l using Props.indOn with
  | nil => trivial
  | cons k' v t ih => exact ⟨h.1, ih h.2⟩

theorem mapAbsent_sorted {l : Props} (h : l.sorted) : (mapAbsent l).sorted := by
  induction l using Props.indOn with
  | nil => trivial
  | cons k v t ih => exact ⟨mapAbsent_allGt h.1, ih h.2⟩

theorem mapAbsent_mapAbsent (l : Props) : mapAbsent (mapAbsent l) = mapAbsent l := by
  induction l using Props.indOn with
  | nil => rfl
  | cons k v t ih => simp only [mapAbsent, setAbsent_setAbsent, ih]

theorem mapAbsent_hasVal {l : Props} {z : Schema} (h : (mapAbsent l).hasVal z) :
    ∃ y, l.hasVal y ∧ z = setAbsent y := by
  induction l using Props.indOn with
  | nil => exact absurd h id
  | cons k v t ih =>
    rcases h with rfl | h
    · exact ⟨v, Or.inl rfl, rfl⟩
    · obtain ⟨y, hy, rfl⟩ := ih h
      exact ⟨y, Or.inr hy, rfl⟩

theorem Props.lookup_nil (k : String) : Props.lookup k .nil = Option.none := rfl

theorem Props.lookup_cons (k k' : String) (v : Schema) (t : Props) :
    Props.lookup k (.cons k' v t) = if k' = k then Option.some v else t.lookup k := rfl

theorem mergeProps_lookup (c : Config) {l1 l2 : Props} (h1 : l1.sorted) (h2 : l2.sorted)
    (k : String) :
    (mergeProps c l1 l2).lookup k = combine2 c (l1.lookup k) (l2.lookup k) := by
  induction l1 using Props.indOn generalizing l2 with
  | nil =>
    simp only [mergeProps_nil, mapAbsent_lookup, Props.lookup_nil]
    cases l2.lookup k <;> rfl
  | cons k1 x t1 ih1 =>
    induction l2 using Props.indOn with
    | nil =>
      simp only [mergeProps_cons_nil, mapAbsent_lookup, Props.lookup_nil]
      cases ((Props.cons k1 x t1).lookup k) <;> rfl
    | cons k2 y t2 ih2 =>
      rw [mergeProps_cons_cons]
      rcases keyLt_tri k1 k2 with hlt | ⟨hf1, hf2, heq⟩ | hgt
      · rw [if_pos hlt]
        by_cases hk : k1 = k
        · subst hk
          simp only [Props.lookup_cons, if_pos rfl, if_true, if_neg (Ne.symm (keyLt_neP hlt)),
            Props.allGt_lookup (Props.allGt_of_lt hlt h2.1), combine2]
        · simp only [Props.lookup_cons, if_neg hk, ih1 h1.2 h2]
      · subst heq
        rw [if_neg hf1, if_neg hf2]
        by_cases hk : k1 = k
        · subst hk
          simp only [Props.lookup_cons, if_pos rfl, if_true, combine2]
        · simp only [Props.lookup_cons, if_neg hk, ih1 h1.2 h2.2]
      · rw [if_neg (keyLt_asymmP hgt), if_pos hgt]
        by_cases hk : k2 = k
        · subst hk
          simp only [Props.lookup_cons, if_pos rfl, if_true, if_neg (Ne.symm (keyLt_neP hgt)),
            Props.allGt_lookup (Props.allGt_of_lt hgt h1.1), combine2]
        · simp only [Props.lookup_cons, if_neg hk, ih2 h2.2]

theorem mergeProps_allGt (c : Config) {l1 l2 : Props} {k : String} (h1 : l1.allGt k)
    (h2 : l2.allGt k) : (mergeProps c l1 l2).allGt k := by
  induction l1 using Props.indOn generalizing l2 with
  | nil => simpa only [mergeProps_nil] using mapAbsent_allGt h2
  | cons k1 x t1 ih1 =>
    induction l2 using Props.indOn with
    | nil =>
      simpa only [mergeProps_cons_nil] using mapAbsent_allGt (l := .cons k1 x t1) ⟨h1.1, h1.2⟩
    | cons k2 y t2 ih2 =>
      rw [mergeProps_cons_cons]
      rcases keyLt_tri k1 k2 with hlt | ⟨hf1, hf2, heq⟩ | hgt
      · exact if_pos hlt ▸ ⟨h1.1, ih1 h1.2 h2⟩
      · subst heq
        rw [if_neg hf1, if_neg hf2]
        exact ⟨h1.1, ih1 h1.2 h2.2⟩
      · rw [if_neg (keyLt_asymmP hgt), if_pos hgt]
        exact ⟨h2.1, ih2 h2.2⟩

theorem mergeProps_sorted (c : Config) {l1 l2 : Props} (h1 : l1.sorted) (h2 : l2.sorted) :
    (mergeProps c l1 l2).sorted := by
  induction l1 using Props.indOn generalizing l2 with
  | nil => simpa only [mergeProps_nil] using mapAbsent_sorted h2
  | cons k1 x t1 ih1 =>
    induction l2 using Props.indOn with
    | nil => simpa only [mergeProps_cons_nil] using mapAbsent_sorted h1
    | cons k2 y t2 ih2 =>
      rw [mergeProps_cons_cons]
      rcases keyLt_tri k1 k2 with hlt | ⟨hf1, hf2, heq⟩ | hgt
      · rw [if_pos hlt]
        exact ⟨mergeProps_allGt c h1.1 ⟨hlt, Props.allGt_of_lt hlt h2.1⟩, ih1 h1.2 h2⟩
      · subst heq
        rw [if_neg hf1, if_neg hf2]
        exact ⟨mergeProps_allGt c h1.1 h2.1, ih1 h1.2 h2.2⟩
      · rw [if_neg (keyLt_asymmP hgt), if_pos hgt]
        exact ⟨mergeProps_allGt c ⟨hgt, Props.allGt_of_lt hgt h1.1⟩ h2.1, ih2 h2.2⟩

theorem mergeProps_length (c : Config) (l1 l2 : Props) :
    (mergeProps c l1 l2).length ≤ l1.length + l2.length := by
  induction l1 using Props.indOn generalizing l2 with
  | nil => rw [mergeProps_nil, mapAbsent_length]; omega
  | cons k1 x t1 ih1 =>
    induction l2 using Props.indOn with
    | nil => rw [mergeProps_cons_nil, mapAbsent_length]; omega
    | cons k2 y t2 ih2 =>
      rw [mergeProps_cons_cons]
      rcases keyLt_tri k1 k2 with hlt | ⟨hf1, hf2, heq⟩ | hgt
      · rw [if_pos hlt]
        have := ih1 (Props.cons k2 y t2)
        simp only [Props.length] at *
        omega
      · subst heq
        rw [if_neg hf1, if_neg hf2]
        have := ih1 t2
        simp only [Props.length] at *
        omega
      · rw [if_neg (keyLt_asymmP hgt), if_pos hgt]
        simp only [Props.length] at *
        omega

theorem mergeProps_hasVal (c : Config) {l1 l2 : Props} {z : Schema}
    (h : (mergeProps c l1 l2).hasVal z) :
    (∃ x y, l1.hasVal x ∧ l2.hasVal y ∧ z = Schema.merge c x y) ∨
    (∃ x, l1.hasVal x ∧ z = setAbsent x) ∨ (∃ y, l2.hasVal y ∧ z = setAbsent y) := by
  induction l1 using Props.indOn generalizing l2 with
  | nil =>
    rw [mergeProps_nil] at h
    obtain ⟨y, hy, rfl⟩ := mapAbsent_hasVal h
    exact Or.inr (Or.inr ⟨y, hy, rfl⟩)
  | cons k1 x t1 ih1 =>
    induction l2 using Props.indOn with
    | nil =>
      rw [mergeProps_cons_nil] at h
      obtain ⟨y, hy, rfl⟩ := mapAbsent_hasVal h
      exact Or.inr (Or.inl ⟨y, hy, rfl⟩)
    | cons k2 y t2 ih2 =>
      rw [mergeProps_cons_cons] at h
      rcases keyLt_tri k1 k2 with hlt | ⟨hf1, hf2, heq⟩ | hgt
      · rw [if_pos hlt] at h
        rcases h with rfl | h
        · exact Or.inr (Or.inl ⟨x, Or.inl rfl, rfl⟩)
        · rcases ih1 h with ⟨u, w, hu, hw, rfl⟩ | ⟨u, hu, rfl⟩ | ⟨w, hw, rfl⟩
          · exact Or.inl ⟨u, w, Or.inr hu, hw, rfl⟩
          · exact Or.inr (Or.inl ⟨u, Or.inr hu, rfl⟩)
          · exact Or.inr (Or.inr ⟨w, hw, rfl⟩)
      · subst heq
        rw [if_neg hf1, if_neg hf2] at h
        rcases h with rfl | h
        · exact Or.inl ⟨x, y, Or.inl rfl, Or.inl rfl, rfl⟩
        · rcases ih1 h with ⟨u, w, hu, hw, rfl⟩ | ⟨u, hu, rfl⟩ | ⟨w, hw, rfl⟩
          · exact Or.inl ⟨u, w, Or.inr hu, Or.inr hw, rfl⟩
          · exact Or.inr (Or.inl ⟨u, Or.inr hu, rfl⟩)
          · exact Or.inr (Or.inr ⟨w, Or.inr hw, rfl⟩)
      · rw [if_neg (keyLt_asymmP hgt), if_pos hgt] at h
        rcases h with rfl | h
        · exact Or.inr (Or.inr ⟨y, Or.inl rfl, rfl⟩)
        · rcases ih2 h with ⟨u, w, hu, hw, rfl⟩ | ⟨u, hu, rfl⟩ | ⟨w, hw, rfl⟩
          · exact Or.inl ⟨u, w, hu, Or.inr hw, rfl⟩
          · exact Or.inr (Or.inl ⟨u, hu, rfl⟩)
          · exact Or.inr (Or.inr ⟨w, Or.inr hw, rfl⟩)

theorem Props.ext_sorted {l1 l2 : Props} (h1 : l1.sorted) (h2 : l2.sorted)
    (h : ∀ k, l1.lookup k = l2.lookup k) : l1 = l2 := by
  induction l1 using Props.indOn generalizing l2 with
  | nil =>
    cases l2 with
    | nil => rfl
    | cons k2 y t2 =>
      have := h k2
      simp [Props.lookup] at this
  | cons k1 x t1 ih =>
    cases l2 with
    | nil =>
      have := h k1
      simp [Props.lookup] at this
    | cons k2 y t2 =>
      rcases keyLt_tri k1 k2 with hlt | ⟨hf1, hf2, heq⟩ | hgt
      · have hk := h k1
        rw [Props.lookup_none_of_lt hlt h2] at hk
        simp [Props.lookup] at hk
      · subst heq
        have hk := h k1
        simp only [Props.lookup, if_pos rfl] at hk
        obtain rfl := Option.some.inj hk
        have ht : t1 = t2 := by
          refine ih h1.2 h2.2 (fun k => ?_)
          by_cases hk1 : k1 = k
          · subst hk1
            rw [Props.allGt_lookup h1.1, Props.allGt_lookup h2.1]
          · have := h k
            simpa only [Props.lookup, if_neg hk1] using this
        rw [ht]
      · have hk := h k2
        rw [Props.lookup_none_of_lt hgt h1] at hk
        simp [Props.lookup] at hk

theorem Schema.size_pos (s : Schema) : 1 ≤ s.size := by
  obtain ⟨m, p, v, a⟩ := s
  simp only [Schema.size]
  omega

/-- `Schema::merge` on two nodes when the string-set phase reduces to the
plain mask union. -/
theorem merge_mk_union (c : Config) (m1 : TypeMask) (p1 : OptProps)
    (v1 : Option (Finset String)) (a1 : OptSchema) (m2 : TypeMask) (p2 : OptProps)
    (v2 : Option (Finset String)) (a2 : OptSchema)
    (hstep : step1 c m1 m2 v1 v2 = (m1.or m2, v1)) :
    Schema.merge c (.mk m1 p1 v1 a1) (.mk m2 p2 v2 a2) =
      (if (m1.or m2).object && propsOver p1 c.max_object_keys then
        Schema.mk { m1.or m2 with object := false, largeObj := true } .none v1
          (if c.consider_array_items && (m1.or m2).array && m2.array then
            combineItems c a1 a2
          else a1)
      else
        Schema.mk (m1.or m2) (mergeOProps c p1 p2) v1
          (if c.consider_array_items && (m1.or m2).array && m2.array then
            combineItems c a1 a2
          else a1)) := by
  rw [merge_mk, hstep]

theorem propsOver_le {l : Props} {n : Nat} (h : l.length ≤ n) :
    propsOver (.some l) n = false := by
  simp only [propsOver, decide_eq_false_iff_not]
  omega

theorem merge_comm_core (c : Config) :
    ∀ n a b, Schema.size a + Schema.size b ≤ n →
      MWf c.consider_array_items c.max_object_keys a →
      MWf c.consider_array_items c.max_object_keys b →
      Schema.merge c a b = Schema.merge c b a := by
  intro n
  induction n with
  | zero =>
    intro a b h _ _
    have := Schema.size_pos a
    omega
  | succ n ih =>
    intro a b hsz ha hb
    cases ha with
    | node m1 p1 v1 a1 hss1 hv1 hs1 hl1 hc1 hcai1 harr1 hch1 =>
    cases hb with
    | node m2 p2 v2 a2 hss2 hv2 hs2 hl2 hc2 hcai2 harr2 hch2 =>
    subst hv1
    subst hv2
    simp only [Schema.size] at hsz
    rw [merge_mk_union c m1 p1 none a1 m2 p2 none a2 (step1_no_ss c m1 m2 none none hss1 hss2),
      merge_mk_union c m2 p2 none a2 m1 p1 none a1 (step1_no_ss c m2 m1 none none hss2 hss1)]
    rw [TypeMask.or_comm m2 m1]
    have hpo1 : propsOver p1 c.max_object_keys = false := by
      cases p1 with
      | none => rfl
      | some l => exact propsOver_le (hl1 l rfl)
    have hpo2 : propsOver p2 c.max_object_keys = false := by
      cases p2 with
      | none => rfl
      | some l => exact propsOver_le (hl2 l rfl)
    rw [hpo1, hpo2]
    simp only [Bool.and_false, Bool.false_eq_true, if_false, Schema.mk.injEq]
    refine ⟨trivial, ?_, trivial, ?_⟩
    · -- property maps commute
      cases p1 with
      | none =>
        cases p2 with
        | none => rfl
        | some l2 => rw [mergeOProps_none_some, mergeOProps_some_none]
      | some l1 =>
        cases p2 with
        | none => rw [mergeOProps_some_none, mergeOProps_none_some]
        | some l2 =>
          rw [mergeOProps_some_some, mergeOProps_some_some]
          refine congrArg _ (Props.ext_sorted (mergeProps_sorted c (hs1 l1 rfl) (hs2 l2 rfl))
            (mergeProps_sorted c (hs2 l2 rfl) (hs1 l1 rfl)) (fun k => ?_))
          rw [mergeProps_lookup c (hs1 l1 rfl) (hs2 l2 rfl) k,
            mergeProps_lookup c (hs2 l2 rfl) (hs1 l1 rfl) k]
          cases hx : l1.lookup k with
          | none => cases hy : l2.lookup k <;> rfl
          | some x =>
            cases hy : l2.lookup k with
            | none => rfl
            | some y =>
              have hxm := Props.hasVal_size (Props.lookup_hasVal hx)
              have hym := Props.hasVal_size (Props.lookup_hasVal hy)
              simp only [OptProps.size] at hsz
              simp only [combine2, Option.some.injEq]
              exact ih x y (by omega) (hc1 l1 x rfl (Props.lookup_hasVal hx))
                (hc2 l2 y rfl (Props.lookup_hasVal hy))
    · -- array items commute
      cases hcai : c.consider_array_items with
      | false =>
        have ha1 : a1 = .none := by
          cases a1 with
          | none => rfl
          | some x => exact absurd (hcai1 x rfl) (by rw [hcai]; exact Bool.false_ne_true)
        have ha2 : a2 = .none := by
          cases a2 with
          | none => rfl
          | some x => exact absurd (hcai2 x rfl) (by rw [hcai]; exact Bool.false_ne_true)
        rw [ha1, ha2]
        simp only [Bool.false_and, Bool.false_eq_true, if_false]
      | true =>
        cases hm1 : m1.array with
        | false =>
          have ha1 : a1 = .none := by
            cases a1 with
            | none => rfl
            | some x => exact absurd (harr1 x rfl) (by rw [hm1]; exact Bool.false_ne_true)
          cases hm2 : m2.array with
          | false =>
            have ha2 : a2 = .none := by
              cases a2 with
              | none => rfl
              | some x => exact absurd (harr2 x rfl) (by rw [hm2]; exact Bool.false_ne_true)
            rw [ha1, ha2]
          | true =>
            simp only [TypeMask.or_array, hm1, hm2, Bool.true_and, Bool.and_true,
              Bool.or_true, Bool.true_or, Bool.and_false, Bool.false_eq_true, if_false,
              if_true, ha1]
            cases a2 with
            | none => rfl
            | some y => rfl
        | true =>
          cases hm2 : m2.array with
          | false =>
            have ha2 : a2 = .none := by
              cases a2 with
              | none => rfl
              | some x => exact absurd (harr2 x rfl) (by rw [hm2]; exact Bool.false_ne_true)
            simp only [TypeMask.or_array, hm1, hm2, Bool.true_and, Bool.and_true,
              Bool.or_true, Bool.true_or, Bool.and_false, Bool.false_eq_true, if_false,
              if_true, ha2]
            cases a1 with
            | none => rfl
            | some x => rfl
          | true =>
            simp only [TypeMask.or_array, hm1, hm2, Bool.true_and, Bool.and_true,
              Bool.or_true, Bool.true_or, if_true]
            cases a1 with
            | none => cases a2 <;> rfl
            | some x =>
              cases a2 with
              | none => rfl
              | some y =>
                simp only [OptSchema.size] at hsz
                simp only [combineItems, OptSchema.some.injEq]
                exact ih x y (by omega) (hch1 x rfl) (hch2 y rfl)

theorem accChunk_all_failed (c : Config) (lines : List (Option J))
    (h : ∀ ol ∈ lines, ol = none) : accChunk c lines = (0, none) := by
  have aux : ∀ (ls : List (Option J)) (init : Nat × Option Schema), (∀ ol ∈ ls, ol = none) →
      ls.foldl (fun st ol => match ol with | some j => accLine c st j | none => st) init = init := by
    intro ls
    induction ls with
    | nil => intro init _; rfl
    | cons ol t ih =>
      intro init hh
      have hol : ol = none := hh ol (List.mem_cons_self ol t)
      subst hol
      exact ih init (fun x hx => hh x (List.mem_cons_of_mem _ hx))
  exact aux lines (0, none) h

theorem processFile_fold_none (c : Config) (chunks : List (List (Option J))) :
    chunks.foldl (fun acc ch => acc.bind (fun a => reduceAcc c a (accChunk c ch))) none =
      none := by
  induction chunks with
  | nil => rfl
  | cons ch t ih => exact ih

/-- C10: with zero successfully parsed non-empty lines, the whole pipeline
reaches a panic (the `unreachable!()` reducer arm when at least one chunk
exists, the final `expect("No schema found")` when none does), modelled as
`none`. -/
theorem c10_no_records_panics (c : Config) (chunks : List (List (Option J)))
    (h : ∀ ch ∈ chunks, ∀ ol ∈ ch, ol = none) : processFile c chunks = none := by
  unfold processFile
  cases chunks with
  | nil => rfl
  | cons ch t =>
    have hch : accChunk c ch = (0, none) :=
      accChunk_all_failed c ch (h ch (List.mem_cons_self ch t))
    rw [List.foldl_cons, hch]
    have h2 : (Option.some ((0 : Nat), (none : Option Schema))).bind
        (fun a => reduceAcc c a (0, none)) = none := rfl
    rw [h2, processFile_fold_none]

/-- C10 witness: a single chunk holding one malformed line panics. -/
theorem c10_witness : processFile cfgDef [[(none : Option J)]] = none :=
  c10_no_records_panics cfgDef [[none]]
    (by intro ch hch ol hol
        simp only [List.mem_singleton] at hch
        subst hch
        simpa using hol)

/-- C7 counterexample: combining the empty accumulator state with itself
hits the `unreachable!()` arm (a panic, modelled as `none`) instead of
yielding the empty state unchanged. -/
theorem c7_counterexample : reduceAcc cfgDef (0, none) (0, none) = none := rfl

/-- C7 (amended): the empty state `(0, None)` is a left and right identity
for every accumulator that carries a schema, and whenever the reducer does
return, the counts combine by plain addition; the empty-empty combination
alone falls into the `unreachable!()` arm. -/
theorem c7_reduce_identity (c : Config) (n : Nat) (s : Schema) (x y : Nat)
    (sa sb : Option Schema) (r : Nat × Option Schema) :
    reduceAcc c (n, some s) (0, none) = some (n, some s) ∧
    reduceAcc c (0, none) (n, some s) = some (n, some s) ∧
    (reduceAcc c (x, sa) (y, sb) = some r → r.1 = x + y) := by
  refine ⟨by simp [reduceAcc], by simp [reduceAcc], ?_⟩
  intro h
  cases sa with
  | some a =>
    cases sb with
    | some b =>
      simp only [reduceAcc, Option.some.injEq] at h
      rw [← h]
    | none =>
      simp only [reduceAcc, Option.some.injEq] at h
      rw [← h]
  | none =>
    cases sb with
    | some b =>
      simp only [reduceAcc, Option.some.injEq] at h
      rw [← h]
    | none =>
      simp only [reduceAcc] at h
      exact Option.noConfusion h

/-- C7 witness: the amended identity and count laws at concrete inputs. -/
theorem c7_witness :
    reduceAcc cfgDef (3, some sI64) (0, none) = some (3, some sI64) ∧
    reduceAcc cfgDef (0, none) (3, some sI64) = some (3, some sI64) ∧
    (reduceAcc cfgDef (1, some sI64) (2, some sI64) =
        some (3, some (Schema.merge cfgDef sI64 sI64)) → (3 : Nat) = 1 + 2) :=
  ⟨(c7_reduce_identity cfgDef 3 sI64 1 2 (some sI64) (some sI64) (3, some sI64)).1,
   (c7_reduce_identity cfgDef 3 sI64 1 2 (some sI64) (some sI64) (3, some sI64)).2.1,
   fun h => (c7_reduce_identity cfgDef 3 sI64 1 2 (some sI64) (some sI64)
     (3, some (Schema.merge cfgDef sI64 sI64))).2.2 h⟩

/-- C9: `infer_type` on a string yields a singleton STRING_SET exactly when
`consider_string_set` is on and the UTF-8 byte length is within
`max_string_set_variant_length`; otherwise it yields a bare `{STRING}` with
no payloads (in particular at length exactly the bound plus one). -/
theorem c9_infer_string (c : Config) (s : String) :
    inferType c (.str s) =
      if c.consider_string_set = true ∧ s.utf8ByteSize ≤ c.max_string_set_variant_length then
        Schema.mk { stringSet := true } .none (some {s}) .none
      else Schema.new { string := true } := by
  simp only [inferType]
  by_cases h1 : c.consider_string_set
  · by_cases h2 : s.utf8ByteSize ≤ c.max_string_set_variant_length
    · simp [h1, h2, Nat.not_lt.mpr h2]
    · simp [h1, h2, Nat.lt_of_not_le (fun hh => h2 hh)]
  · simp [h1]

theorem scanNlF_spec : ∀ (f : Nat) (buf : List Nat) (j : Nat), buf.length - j < f →
    j ≤ buf.length →
    j ≤ scanNlF f buf j ∧ scanNlF f buf j ≤ buf.length ∧
      (scanNlF f buf j < buf.length → buf.getD (scanNlF f buf j) 0 = 10) := by
  intro f
  induction f with
  | zero => intro buf j h hj; omega
  | succ f ih =>
    intro buf j h hj
    simp only [scanNlF]
    by_cases hlt : j < buf.length
    · simp only [if_pos hlt]
      cases hb : (buf.getD j 0 == 10) with
      | true =>
        simp only [if_pos rfl, if_true]
        exact ⟨le_refl j, le_of_lt hlt, fun _ => by simpa using hb⟩
      | false =>
        simp only [Bool.false_eq_true, if_false]
        obtain ⟨h1, h2, h3⟩ := ih buf (j + 1) (by omega) (by omega)
        exact ⟨by omega, h2, h3⟩
    · simp only [if_neg hlt]
      exact ⟨le_refl j, hj, fun hc => absurd hc hlt⟩

theorem scanNl_spec (buf : List Nat) (j : Nat) (hj : j ≤ buf.length) :
    j ≤ scanNl buf j ∧ scanNl buf j ≤ buf.length ∧
      (scanNl buf j < buf.length → buf.getD (scanNl buf j) 0 = 10) :=
  scanNlF_spec (buf.length + 1) buf j (by omega) hj

theorem chunkGo_spec : ∀ (f : Nat) (buf : List Nat) (csz current : Nat),
    buf.length - current < f → current ≤ buf.length →
    chainB current buf.length (chunkGo f buf csz current) = true ∧
    endsOk buf (chunkGo f buf csz current) = true := by
  intro f
  induction f with
  | zero => intro buf csz current h hc; omega
  | succ f ih =>
    intro buf csz current h hc
    simp only [chunkGo]
    by_cases hlt : current < buf.length
    · simp only [if_pos hlt]
      by_cases hT : buf.length ≤ min (current + csz) buf.length
      · simp only [if_pos hT]
        exact ⟨by simp [chainB, hlt], by simp [endsOk]⟩
      · simp only [if_neg hT]
        have htl : min (current + csz) buf.length ≤ buf.length := min_le_right _ _
        obtain ⟨hs1, hs2, hs3⟩ := scanNl_spec buf (min (current + csz) buf.length) htl
        by_cases hA : buf.length ≤ scanNl buf (min (current + csz) buf.length)
        · simp only [if_pos hA]
          exact ⟨by simp [chainB, hlt], by simp [endsOk]⟩
        · simp only [if_neg hA]
          have hcur : current ≤ min (current + csz) buf.length := le_min (by omega) (by omega)
          have hA' : scanNl buf (min (current + csz) buf.length) < buf.length := by omega
          have hnl : buf.getD (scanNl buf (min (current + csz) buf.length)) 0 = 10 := hs3 hA'
          obtain ⟨hch, hend⟩ := ih buf csz (scanNl buf (min (current + csz) buf.length) + 1)
            (by omega) (by omega)
          refine ⟨?_, ?_⟩
          · simp only [chainB, Bool.and_eq_true, beq_iff_eq, decide_eq_true_eq]
            refine ⟨⟨⟨trivial, by omega⟩, by omega⟩, hch⟩
          · simp only [endsOk, List.all_cons, Bool.and_eq_true, Bool.or_eq_true, beq_iff_eq]
            refine ⟨Or.inr (by simpa using hnl), by simpa [endsOk] using hend⟩
    · simp only [if_neg hlt]
      have : current = buf.length := by omega
      subst this
      exact ⟨by simp [chainB], by simp [endsOk]⟩

/-- C8: for every byte buffer and target chunk size, the emitted ranges
chain exactly across `[0, N)` (no gaps, no overlaps, all ranges non-empty,
last end = N), every range end is `N` or one past a newline byte `0x0A`,
and the empty buffer yields the empty boundary list. -/
theorem c8_chunk_boundaries (buf : List Nat) (csz : Nat) :
    chainB 0 buf.length (findChunkBoundaries buf csz) = true ∧
    endsOk buf (findChunkBoundaries buf csz) = true ∧
    (buf = [] → findChunkBoundaries buf csz = []) := by
  obtain ⟨h1, h2⟩ := chunkGo_spec (buf.length + 1) buf csz 0 (by omega) (by omega)
  refine ⟨h1, h2, ?_⟩
  intro h
  subst h
  rfl

/-- C8 witness: the chunker contract at a concrete two-byte buffer. -/
theorem c8_witness :
    chainB 0 ([72, 10] : List Nat).length (findChunkBoundaries [72, 10] 1) = true ∧
    endsOk [72, 10] (findChunkBoundaries [72, 10] 1) = true ∧
    (([72, 10] : List Nat) = [] → findChunkBoundaries [72, 10] 1 = []) :=
  c8_chunk_boundaries [72, 10] 1

/-- An atomic schema (mask only) satisfies the merge well-formedness
hypotheses whenever its STRING_SET bit is clear. -/
theorem mwf_atom (cai : Bool) (n : Nat) (m : TypeMask) (hss : m.stringSet = false) :
    MWf cai n (Schema.new m) :=
  .node m .none none .none hss rfl (fun l h => by cases h) (fun l h => by cases h)
    (fun l x h => by cases h) (fun x h => by cases h) (fun x h => by cases h)
    (fun x h => by cases h)

/-- C1 counterexample: two schemas satisfying the spec invariants I1-I4
(checked by `Schema.validB` at the default bounds) whose merges in the two
argument orders differ observably — the string-set/string interaction keeps
only `self`'s mask, dropping `other`'s NULL tag in one order. -/
theorem c1_counterexample :
    Schema.validB 200 100 50 sSetX = true ∧ Schema.validB 200 100 50 sStrNull = true ∧
    (Schema.merge cfgSS sSetX sStrNull).type_mask ≠
      (Schema.merge cfgSS sStrNull sSetX).type_mask := by
  decide

/-- C1 (amended): `Schema::merge` is commutative for schemas that carry no
STRING_SET tag and no `string_values` payload anywhere (so the M2 special
branches never engage), whose property maps stay within `max_object_keys`
(so the one-sided cutoff cannot fire), and whose `array_items` occur only
under an ARRAY tag and only when `consider_array_items` is enabled — under
any configuration. -/
theorem c1_merge_comm (c : Config) (a b : Schema)
    (ha : MWf c.consider_array_items c.max_object_keys a)
    (hb : MWf c.consider_array_items c.max_object_keys b) :
    Schema.merge c a b = Schema.merge c b a :=
  merge_comm_core c (Schema.size a + Schema.size b) a b le_rfl ha hb

/-- C1 witness: commutativity applied at two concrete atomic schemas. -/
theorem c1_witness :
    MWf cfgDef.consider_array_items cfgDef.max_object_keys sI64 ∧
    MWf cfgDef.consider_array_items cfgDef.max_object_keys sStr ∧
    Schema.merge cfgDef sI64 sStr = Schema.merge cfgDef sStr sI64 := by
  have h1 : MWf cfgDef.consider_array_items cfgDef.max_object_keys sI64 :=
    mwf_atom _ _ _ rfl
  have h2 : MWf cfgDef.consider_array_items cfgDef.max_object_keys sStr :=
    mwf_atom _ _ _ rfl
  exact ⟨h1, h2, c1_merge_comm cfgDef sI64 sStr h1 h2⟩

/-- C4 counterexample: with `consider_string_set` on, merging a STRING_SET
schema with a `{STRING, NULL}` schema drops the NULL tag of `other`
entirely — the type-mask union does not hold, and NULL is not one of the
tags M2 is allowed to rewrite. -/
theorem c4_counterexample :
    (Schema.merge cfgSS sSetX sStrNull).type_mask.null = false ∧
    sStrNull.type_mask.null = true := by
  decide

/-- C4 (amended): the type-mask union `self.type_mask |= other.type_mask`
holds whenever `consider_string_set` is off and `self`'s property map does
not trigger the large-object cutoff; when `consider_string_set` is on, the
M2 branches replace the union by `self`'s mask alone, and the cutoff may
additionally rewrite OBJECT into LARGE_OBJECT. -/
theorem c4_mask_union (c : Config) (a b : Schema)
    (hcs : c.consider_string_set = false)
    (hb : ∀ l, a.object_properties = OptProps.some l → l.length ≤ c.max_object_keys) :
    (Schema.merge c a b).type_mask = a.type_mask.or b.type_mask := by
  obtain ⟨m1, p1, v1, a1⟩ := a
  obtain ⟨m2, p2, v2, a2⟩ := b
  simp only [Schema.object_properties] at hb
  rw [merge_mk_union c m1 p1 v1 a1 m2 p2 v2 a2 (step1_no_cfg c m1 m2 v1 v2 hcs)]
  have hpo : propsOver p1 c.max_object_keys = false := by
    cases p1 with
    | none => rfl
    | some l => exact propsOver_le (hb l rfl)
  rw [hpo]
  simp only [Bool.and_false, Bool.false_eq_true, if_false, Schema.type_mask]

/-- C4 witness: the mask union at two concrete atomic schemas. -/
theorem c4_witness :
    cfgDef.consider_string_set = false ∧
    (Schema.merge cfgDef sI64 sStrNull).type_mask = sI64.type_mask.or sStrNull.type_mask :=
  ⟨rfl, c4_mask_union cfgDef sI64 sStrNull rfl
    (fun l h => by simp [sI64, Schema.new, Schema.object_properties] at h)⟩

/-- C6 counterexample: an object with `max_object_keys + 1` keys merged in
the *right* argument position does not collapse — the cutoff only inspects
`self`'s property count, so the result keeps OBJECT and gains no
LARGE_OBJECT. -/
theorem c6_counterexample :
    Schema.validB 2 100 50 sObjAB = true ∧
    sObjAB.object_properties.keyCount = cfgK1.max_object_keys + 1 ∧
    (Schema.merge cfgK1 sObjA sObjAB).type_mask.largeObj = false ∧
    (Schema.merge cfgK1 sObjA sObjAB).type_mask.object = true := by
  decide

/-- C6 (amended): when the schema holding more than `max_object_keys` keys
is the *left* (`self`) argument and neither side carries STRING_SET, the
merge switches OBJECT to LARGE_OBJECT, clears `object_properties`, and
skips the property merge (the right-hand properties are discarded); in the
right argument position the cutoff does not fire during that merge. -/
theorem c6_cutoff_left (c : Config) (m1 : TypeMask) (l1 : Props)
    (v1 v2 : Option (Finset String)) (a1 a2 : OptSchema) (m2 : TypeMask) (p2 : OptProps)
    (hss1 : m1.stringSet = false) (hss2 : m2.stringSet = false)
    (hobj : m1.object = true)
    (hlen : l1.length = c.max_object_keys + 1) :
    (Schema.merge c (.mk m1 (.some l1) v1 a1) (.mk m2 p2 v2 a2)).type_mask.largeObj = true ∧
    (Schema.merge c (.mk m1 (.some l1) v1 a1) (.mk m2 p2 v2 a2)).type_mask.object = false ∧
    (Schema.merge c (.mk m1 (.some l1) v1 a1) (.mk m2 p2 v2 a2)).object_properties =
      .none := by
  rw [merge_mk_union c m1 (.some l1) v1 a1 m2 p2 v2 a2 (step1_no_ss c m1 m2 v1 v2 hss1 hss2)]
  have hpo : propsOver (.some l1) c.max_object_keys = true := by
    simp [propsOver, hlen]
  have hmo : (m1.or m2).object = true := by
    simp [TypeMask.or_object, hobj]
  rw [hpo, hmo]
  simp [Schema.type_mask, Schema.object_properties]

/-- C6 witness: the left-position cutoff at a concrete two-key object
merged with a one-key object under `max_object_keys = 1`. -/
theorem c6_witness :
    (Schema.merge cfgK1 sObjAB sObjA).type_mask.largeObj = true ∧
    (Schema.merge cfgK1 sObjAB sObjA).type_mask.object = false ∧
    (Schema.merge cfgK1 sObjAB sObjA).object_properties = .none :=
  c6_cutoff_left cfgK1 { object := true } (.cons "a" sNull (.cons "b" sNull .nil))
    none none .none .none { object := true } (.some (.cons "a" sNull .nil))
    rfl rfl rfl rfl

/-- C3 counterexample: both sides form STRING_SETs whose union `{"x"}` has
size 1 ≤ `max_string_set_values` = 1, yet the merge collapses (the code
compares the *sum* of the two sizes, not the union), and `string_values` is
not cleared by the collapse. -/
theorem c3_counterexample :
    (({"x"} ∪ {"x"} : Finset String).card ≤ cfgSS1.max_string_set_values) ∧
    (Schema.merge cfgSS1 sSetX sSetX).type_mask.stringSet = false ∧
    (Schema.merge cfgSS1 sSetX sSetX).string_values = some {"x"} := by
  decide

/-- C3 (amended): when `consider_string_set` is on and both sides carry
STRING_SET (and no STRING tag), the merge keeps the union of the two value
sets iff the *sum* of their cardinalities is within
`max_string_set_values`; otherwise it clears STRING_SET, sets STRING, and
*retains* the left-hand value set.  In particular a set holding exactly
`max_string_set_values` entries collapses under any merge with a non-empty
set — even one adding no new member. -/
theorem c3_ss_merge (c : Config) (m1 m2 : TypeMask) (p1 p2 : OptProps)
    (A B : Finset String) (a1 a2 : OptSchema)
    (hcs : c.consider_string_set = true)
    (h1 : m1.stringSet = true) (h2 : m2.stringSet = true)
    (hs1 : m1.string = false) (hs2 : m2.string = false) :
    ((Schema.merge c (.mk m1 p1 (some A) a1) (.mk m2 p2 (some B) a2)).string_values =
      if c.max_string_set_values < A.card + B.card then some A else some (A ∪ B)) ∧
    ((Schema.merge c (.mk m1 p1 (some A) a1) (.mk m2 p2 (some B) a2)).type_mask.stringSet =
      !decide (c.max_string_set_values < A.card + B.card)) ∧
    ((Schema.merge c (.mk m1 p1 (some A) a1) (.mk m2 p2 (some B) a2)).type_mask.string =
      decide (c.max_string_set_values < A.card + B.card)) := by
  have hstep : step1 c m1 m2 (some A) (some B) =
      if c.max_string_set_values < A.card + B.card then
        ({ m1 with stringSet := false, string := true }, some A)
      else (m1, some (A ∪ B)) := by
    simp [step1, hcs, h1, h2, hs1, hs2]
  rw [merge_mk, hstep]
  by_cases hov : c.max_string_set_values < A.card + B.card
  · simp only [if_pos hov]
    by_cases hcut : ({ m1 with stringSet := false, string := true } : TypeMask).object &&
        propsOver p1 c.max_object_keys
    · simp [hcut, Schema.string_values, Schema.type_mask, hov]
    · simp only [Bool.not_eq_true] at hcut
      simp [hcut, Schema.string_values, Schema.type_mask, hov]
  · simp only [if_neg hov]
    by_cases hcut : m1.object && propsOver p1 c.max_object_keys
    · simp [hcut, Schema.string_values, Schema.type_mask, hov, h1, hs1]
    · simp only [Bool.not_eq_true] at hcut
      simp [hcut, Schema.string_values, Schema.type_mask, hov, h1, hs1]

/-- C3 witness: the both-STRING_SET merge law at concrete singleton sets
(no overflow at the default bound of 100). -/
theorem c3_witness :
    cfgSS.consider_string_set = true ∧
    ((Schema.merge cfgSS (.mk { stringSet := true } .none (some {"a"}) .none)
        (.mk { stringSet := true } .none (some {"b"}) .none)).string_values =
      if cfgSS.max_string_set_values < ({"a"} : Finset String).card +
          ({"b"} : Finset String).card then some {"a"}
      else some ({"a"} ∪ {"b"})) := by
  refine ⟨rfl, ?_⟩
  exact (c3_ss_merge cfgSS { stringSet := true } { stringSet := true } .none .none
    {"a"} {"b"} .none .none rfl rfl rfl rfl rfl).1

/-- Setting ABSENT preserves the object well-formedness hypotheses. -/
theorem owf_setAbsent {n : Nat} {s : Schema} (h : OWf n s) : OWf n (setAbsent s) := by
  cases h with
  | node m p v a hlo hpo hpl hpc hia =>
    rw [setAbsent_mk]
    exact .node _ p v a hlo hpo hpl hpc hia

/-- Setting ABSENT preserves invariants I1 and I2. -/
theorem invI12_setAbsent {maxk : Nat} {s : Schema} (h : InvI12 maxk s) :
    InvI12 maxk (setAbsent s) := by
  cases h with
  | node m p v a h1 h2 h3 h4 h5 =>
    rw [setAbsent_mk]
    exact .node _ p v a h1 h2 h3 h4 h5

theorem owf_invI12 : ∀ (sz : Nat) (s : Schema) (n maxk : Nat), Schema.size s ≤ sz →
    OWf n s → n ≤ maxk → InvI12 maxk s := by
  intro sz
  induction sz with
  | zero =>
    intro s n maxk hs _ _
    have := Schema.size_pos s
    omega
  | succ sz ih =>
    intro s n maxk hs h hnm
    cases h with
    | node m p v a hlo hpo hpl hpc hia =>
      simp only [Schema.size] at hs
      refine .node m p v a (Or.inl hlo) hpo (fun l hl => le_trans (hpl l hl) hnm) ?_ ?_
      · intro l x hl hx
        have hsz := Props.hasVal_size hx
        subst hl
        simp only [OptProps.size] at hs
        exact ih x n maxk (by omega) (hpc l x rfl hx) hnm
      · intro x hx
        subst hx
        simp only [OptSchema.size] at hs
        exact ih x n maxk (by omega) (hia x rfl) hnm

theorem owf_to_inv {n maxk : Nat} {s : Schema} (h : OWf n s) (hnm : n ≤ maxk) :
    InvI12 maxk s :=
  owf_invI12 (Schema.size s) s n maxk le_rfl h hnm

theorem c5_core (c : Config) (hcs : c.consider_string_set = false) :
    ∀ (sz : Nat) (a b : Schema) (na nb : Nat), Schema.size a + Schema.size b ≤ sz →
      OWf na a → OWf nb b → na + nb ≤ c.max_object_keys →
      InvI12 c.max_object_keys (Schema.merge c a b) := by
  intro sz
  induction sz with
  | zero =>
    intro a b na nb hs _ _ _
    have := Schema.size_pos a
    omega
  | succ sz ih =>
    intro a b na nb hs ha hb hbound
    cases ha with
    | node m1 p1 v1 a1 hlo1 hpo1 hpl1 hpc1 hia1 =>
    cases hb with
    | node m2 p2 v2 a2 hlo2 hpo2 hpl2 hpc2 hia2 =>
    simp only [Schema.size] at hs
    rw [merge_mk_union c m1 p1 v1 a1 m2 p2 v2 a2 (step1_no_cfg c m1 m2 v1 v2 hcs)]
    have hpo : propsOver p1 c.max_object_keys = false := by
      cases p1 with
      | none => rfl
      | some l => exact propsOver_le (le_trans (hpl1 l rfl) (by omega))
    rw [hpo]
    simp only [Bool.and_false, Bool.false_eq_true, if_false]
    refine .node _ _ _ _ ?_ ?_ ?_ ?_ ?_
    · left
      simp [TypeMask.or_largeObj, hlo1, hlo2]
    · intro l hl
      cases p1 with
      | some l1 =>
        have := hpo1 l1 rfl
        simp [TypeMask.or_object, this]
      | none =>
        cases p2 with
        | some l2 =>
          have := hpo2 l2 rfl
          simp [TypeMask.or_object, this]
        | none =>
          rw [mergeOProps_none_none] at hl
          cases hl
    · intro l hl
      cases p1 with
      | none =>
        cases p2 with
        | none =>
          rw [mergeOProps_none_none] at hl
          cases hl
        | some l2 =>
          rw [mergeOProps_none_some] at hl
          injection hl with h
          subst h
          rw [mapAbsent_length]
          exact le_trans (hpl2 l2 rfl) (by omega)
      | some l1 =>
        cases p2 with
        | none =>
          rw [mergeOProps_some_none] at hl
          injection hl with h
          subst h
          rw [mapAbsent_length]
          exact le_trans (hpl1 l1 rfl) (by omega)
        | some l2 =>
          rw [mergeOProps_some_some] at hl
          injection hl with h
          subst h
          have hml := mergeProps_length c l1 l2
          have h1 := hpl1 l1 rfl
          have h2 := hpl2 l2 rfl
          omega
    · intro l x hl hx
      cases p1 with
      | none =>
        cases p2 with
        | none =>
          rw [mergeOProps_none_none] at hl
          cases hl
        | some l2 =>
          rw [mergeOProps_none_some] at hl
          injection hl with h
          subst h
          obtain ⟨y, hy, rfl⟩ := mapAbsent_hasVal hx
          exact invI12_setAbsent (owf_to_inv (hpc2 l2 y rfl hy) (by omega))
      | some l1 =>
        cases p2 with
        | none =>
          rw [mergeOProps_some_none] at hl
          injection hl with h
          subst h
          obtain ⟨y, hy, rfl⟩ := mapAbsent_hasVal hx
          exact invI12_setAbsent (owf_to_inv (hpc1 l1 y rfl hy) (by omega))
        | some l2 =>
          rw [mergeOProps_some_some] at hl
          injection hl with h
          subst h
          rcases mergeProps_hasVal c hx with ⟨u, w, hu, hw, rfl⟩ | ⟨u, hu, rfl⟩ | ⟨w, hw, rfl⟩
          · have hsu := Props.hasVal_size hu
            have hsw := Props.hasVal_size hw
            simp only [OptProps.size] at hs
            exact ih u w na nb (by omega) (hpc1 l1 u rfl hu) (hpc2 l2 w rfl hw) hbound
          · exact invI12_setAbsent (owf_to_inv (hpc1 l1 u rfl hu) (by omega))
          · exact invI12_setAbsent (owf_to_inv (hpc2 l2 w rfl hw) (by omega))
    · intro x hx
      by_cases hcond : (c.consider_array_items && (m1.or m2).array && m2.array) = true
      · rw [if_pos hcond] at hx
        cases a1 with
        | none =>
          cases a2 with
          | none => cases hx
          | some y =>
            simp only [combineItems] at hx
            injection hx with h
            subst h
            exact owf_to_inv (hia2 y rfl) (by omega)
        | some u =>
          cases a2 with
          | none =>
            simp only [combineItems] at hx
            injection hx with h
            subst h
            exact owf_to_inv (hia1 u rfl) (by omega)
          | some y =>
            simp only [combineItems] at hx
            injection hx with h
            subst h
            simp only [OptSchema.size] at hs
            exact ih u y na nb (by omega) (hia1 u rfl) (hia2 y rfl) hbound
      · rw [if_neg hcond] at hx
        exact owf_to_inv (hia1 x hx) (by omega)

/-- C5 counterexample: merging the valid schemas `{LARGE_OBJECT}` and an
empty-map object under the default config yields a result with both
LARGE_OBJECT and OBJECT set, violating invariant I1. -/
theorem c5_counterexample :
    Schema.validB 200 100 50 sLO = true ∧ Schema.validB 200 100 50 sObjEmpty = true ∧
    (Schema.merge cfgDef sLO sObjEmpty).type_mask.largeObj = true ∧
    (Schema.merge cfgDef sLO sObjEmpty).type_mask.object = true := by
  decide

/-- C5 (amended): invariants I1 and I2 hold on the merge result provided
`consider_string_set` is off, neither input carries LARGE_OBJECT anywhere,
both inputs satisfy I2 with per-node key bounds `na` and `nb`, and
`na + nb ≤ max_object_keys` (so no node of the union can overflow).  As
stated the claim fails: a LARGE_OBJECT input merged with an object breaks
I1, and two objects with disjoint keys can exceed `max_object_keys`,
breaking I2's size bound. -/
theorem c5_invariants (c : Config) (a b : Schema) (na nb : Nat)
    (hcs : c.consider_string_set = false) (ha : OWf na a) (hb : OWf nb b)
    (hbound : na + nb ≤ c.max_object_keys) :
    InvI12 c.max_object_keys (Schema.merge c a b) :=
  c5_core c hcs (Schema.size a + Schema.size b) a b na nb le_rfl ha hb hbound

/-- An atomic schema without LARGE_OBJECT satisfies the object
well-formedness hypotheses. -/
theorem owf_atom (n : Nat) (m : TypeMask) (hlo : m.largeObj = false) :
    OWf n (Schema.new m) :=
  .node m .none none .none hlo (fun l h => by cases h) (fun l h => by cases h)
    (fun l x h => by cases h) (fun x h => by cases h)

/-- C5 witness: the amended invariant preservation at two atomic schemas. -/
theorem c5_witness :
    cfgDef.consider_string_set = false ∧ OWf 0 sI64 ∧ OWf 0 sStr ∧
    0 + 0 ≤ cfgDef.max_object_keys ∧
    InvI12 cfgDef.max_object_keys (Schema.merge cfgDef sI64 sStr) := by
  have h1 : OWf 0 sI64 := owf_atom 0 _ rfl
  have h2 : OWf 0 sStr := owf_atom 0 _ rfl
  exact ⟨rfl, h1, h2, by omega, c5_invariants cfgDef sI64 sStr 0 0 rfl h1 h2 (by omega)⟩

/-- The STRING_SET bit of a merge-well-formed schema is clear. -/
theorem mwf_ss {cai : Bool} {n : Nat} {s : Schema} (h : MWf cai n s) :
    s.type_mask.stringSet = false := by
  cases h with
  | node m p v a hss hv hs hl hc hcai harr hch => exact hss

/-- Merging with an ABSENT-flagged right argument is the ABSENT-flagged
merge: the flag or-ed into `other`'s mask lands in the result mask and
nothing else changes. -/
theorem merge_absent_right (c : Config) (x y : Schema)
    (hss1 : x.type_mask.stringSet = false) (hss2 : y.type_mask.stringSet = false) :
    Schema.merge c x (setAbsent y) = setAbsent (Schema.merge c x y) := by
  obtain ⟨m1, p1, v1, a1⟩ := x
  obtain ⟨m2, p2, v2, a2⟩ := y
  simp only [Schema.type_mask] at hss1 hss2
  rw [setAbsent_mk,
    merge_mk_union c m1 p1 v1 a1 { m2 with absent := true } p2 v2 a2
      (step1_no_ss c m1 { m2 with absent := true } v1 v2 hss1 hss2),
    merge_mk_union c m1 p1 v1 a1 m2 p2 v2 a2 (step1_no_ss c m1 m2 v1 v2 hss1 hss2),
    apply_ite setAbsent, setAbsent_mk, setAbsent_mk]
  have hor : m1.or { m2 with absent := true } = { m1.or m2 with absent := true } := by
    simp [TypeMask.or, Bool.or_true]
  rw [hor]

/-- Merging with an ABSENT-flagged left argument is the ABSENT-flagged
merge. -/
theorem merge_absent_left (c : Config) (x y : Schema)
    (hss1 : x.type_mask.stringSet = false) (hss2 : y.type_mask.stringSet = false) :
    Schema.merge c (setAbsent x) y = setAbsent (Schema.merge c x y) := by
  obtain ⟨m1, p1, v1, a1⟩ := x
  obtain ⟨m2, p2, v2, a2⟩ := y
  simp only [Schema.type_mask] at hss1 hss2
  rw [setAbsent_mk,
    merge_mk_union c { m1 with absent := true } p1 v1 a1 m2 p2 v2 a2
      (step1_no_ss c { m1 with absent := true } m2 v1 v2 hss1 hss2),
    merge_mk_union c m1 p1 v1 a1 m2 p2 v2 a2 (step1_no_ss c m1 m2 v1 v2 hss1 hss2),
    apply_ite setAbsent, setAbsent_mk, setAbsent_mk]
  have hor : TypeMask.or { m1 with absent := true } m2 = { m1.or m2 with absent := true } := by
    simp [TypeMask.or, Bool.true_or]
  rw [hor]

theorem mergeProps_absent_left (c : Config) {l2 l3 : Props} (hs2 : l2.sorted)
    (hs3 : l3.sorted)
    (hv2 : ∀ x, l2.hasVal x → x.type_mask.stringSet = false)
    (hv3 : ∀ x, l3.hasVal x → x.type_mask.stringSet = false) :
    mergeProps c (mapAbsent l2) l3 = mapAbsent (mergeProps c l2 l3) := by
  refine Props.ext_sorted (mergeProps_sorted c (mapAbsent_sorted hs2) hs3)
    (mapAbsent_sorted (mergeProps_sorted c hs2 hs3)) (fun k => ?_)
  rw [mergeProps_lookup c (mapAbsent_sorted hs2) hs3 k, mapAbsent_lookup, mapAbsent_lookup,
    mergeProps_lookup c hs2 hs3 k]
  cases h2 : l2.lookup k with
  | none =>
    cases h3 : l3.lookup k with
    | none => rfl
    | some z => simp [combine2, setAbsent_setAbsent]
  | some y =>
    cases h3 : l3.lookup k with
    | none => rfl
    | some z =>
      simp only [Option.map_some', combine2, Option.some.injEq]
      exact merge_absent_left c y z (hv2 y (Props.lookup_hasVal h2))
        (hv3 z (Props.lookup_hasVal h3))

theorem mergeProps_absent_right (c : Config) {l1 l2 : Props} (hs1 : l1.sorted)
    (hs2 : l2.sorted)
    (hv1 : ∀ x, l1.hasVal x → x.type_mask.stringSet = false)
    (hv2 : ∀ x, l2.hasVal x → x.type_mask.stringSet = false) :
    mergeProps c l1 (mapAbsent l2) = mapAbsent (mergeProps c l1 l2) := by
  refine Props.ext_sorted (mergeProps_sorted c hs1 (mapAbsent_sorted hs2))
    (mapAbsent_sorted (mergeProps_sorted c hs1 hs2)) (fun k => ?_)
  rw [mergeProps_lookup c hs1 (mapAbsent_sorted hs2) k, mapAbsent_lookup, mapAbsent_lookup,
    mergeProps_lookup c hs1 hs2 k]
  cases h1 : l1.lookup k with
  | none =>
    cases h2 : l2.lookup k with
    | none => rfl
    | some z => rfl
  | some y =>
    cases h2 : l2.lookup k with
    | none => simp [combine2, setAbsent_setAbsent]
    | some z =>
      simp only [Option.map_some', combine2, Option.some.injEq]
      exact merge_absent_right c y z (hv1 y (Props.lookup_hasVal h1))
        (hv2 z (Props.lookup_hasVal h2))

theorem mergeProps_absent_both (c : Config) {l1 l3 : Props} (hs1 : l1.sorted)
    (hs3 : l3.sorted)
    (hv1 : ∀ x, l1.hasVal x → x.type_mask.stringSet = false)
    (hv3 : ∀ x, l3.hasVal x → x.type_mask.stringSet = false) :
    mergeProps c (mapAbsent l1) l3 = mergeProps c l1 (mapAbsent l3) := by
  rw [mergeProps_absent_left c hs1 hs3 hv1 hv3, mergeProps_absent_right c hs1 hs3 hv1 hv3]

theorem merge_assoc_core (c : Config) : ∀ (sz : Nat) (a b d : Schema) (na nb nd : Nat),
    Schema.size a + Schema.size b + Schema.size d ≤ sz →
    MWf c.consider_array_items na a → MWf c.consider_array_items nb b →
    MWf c.consider_array_items nd d →
    na + nb + nd ≤ c.max_object_keys →
    Schema.merge c (Schema.merge c a b) d = Schema.merge c a (Schema.merge c b d) := by
  intro sz
  induction sz with
  | zero =>
    intro a b d na nb nd hs _ _ _ _
    have := Schema.size_pos a
    omega
  | succ sz ih =>
    intro a b d na nb nd hs ha hb hd hbound
    cases ha with
    | node m1 p1 v1 a1 hss1 hv1 hs1 hl1 hc1 hcai1 harr1 hch1 =>
    cases hb with
    | node m2 p2 v2 a2 hss2 hv2 hs2 hl2 hc2 hcai2 harr2 hch2 =>
    cases hd with
    | node m3 p3 v3 a3 hss3 hv3 hs3 hl3 hc3 hcai3 harr3 hch3 =>
    subst hv1
    subst hv2
    subst hv3
    simp only [Schema.size] at hs
    have hpo1 : propsOver p1 c.max_object_keys = false := by
      cases p1 with
      | none => rfl
      | some l => exact propsOver_le (le_trans (hl1 l rfl) (by omega))
    have hpo2 : propsOver p2 c.max_object_keys = false := by
      cases p2 with
      | none => rfl
      | some l => exact propsOver_le (le_trans (hl2 l rfl) (by omega))
    rw [merge_mk_union c m1 p1 none a1 m2 p2 none a2 (step1_no_ss c m1 m2 none none hss1 hss2),
      merge_mk_union c m2 p2 none a2 m3 p3 none a3 (step1_no_ss c m2 m3 none none hss2 hss3),
      hpo1, hpo2]
    simp only [Bool.and_false, Bool.false_eq_true, if_false]
    have hssAB : (m1.or m2).stringSet = false := by
      simp [TypeMask.or_stringSet, hss1, hss2]
    have hssBD : (m2.or m3).stringSet = false := by
      simp [TypeMask.or_stringSet, hss2, hss3]
    rw [merge_mk_union c (m1.or m2) (mergeOProps c p1 p2) none _ m3 p3 none a3
        (step1_no_ss c (m1.or m2) m3 none none hssAB hss3),
      merge_mk_union c m1 p1 none a1 (m2.or m3) (mergeOProps c p2 p3) none _
        (step1_no_ss c m1 (m2.or m3) none none hss1 hssBD)]
    have hpoAB : propsOver (mergeOProps c p1 p2) c.max_object_keys = false := by
      cases p1 with
      | none =>
        cases p2 with
        | none => rfl
        | some l2 =>
          rw [mergeOProps_none_some]
          exact propsOver_le (by rw [mapAbsent_length]; exact le_trans (hl2 l2 rfl) (by omega))
      | some l1 =>
        cases p2 with
        | none =>
          rw [mergeOProps_some_none]
          exact propsOver_le (by rw [mapAbsent_length]; exact le_trans (hl1 l1 rfl) (by omega))
        | some l2 =>
          rw [mergeOProps_some_some]
          refine propsOver_le ?_
          have hml := mergeProps_length c l1 l2
          have u1 := hl1 l1 rfl
          have u2 := hl2 l2 rfl
          omega
    rw [hpoAB, hpo1]
    simp only [Bool.and_false, Bool.false_eq_true, if_false, Schema.mk.injEq]
    refine ⟨TypeMask.or_assoc m1 m2 m3, ?_, trivial, ?_⟩
    · -- property maps associate
      cases p1 with
      | none =>
        cases p2 with
        | none =>
          cases p3 with
          | none => rfl
          | some l3 =>
            simp only [mergeOProps_none_none, mergeOProps_none_some, mapAbsent_mapAbsent]
        | some l2 =>
          cases p3 with
          | none =>
            simp only [mergeOProps_none_some, mergeOProps_some_none, mergeOProps_none_none]
          | some l3 =>
            simp only [mergeOProps_none_some, mergeOProps_some_some, OptProps.some.injEq]
            exact mergeProps_absent_left c (hs2 l2 rfl) (hs3 l3 rfl)
              (fun x hx => mwf_ss (hc2 l2 x rfl hx)) (fun x hx => mwf_ss (hc3 l3 x rfl hx))
      | some l1 =>
        cases p2 with
        | none =>
          cases p3 with
          | none =>
            simp only [mergeOProps_some_none, mergeOProps_none_none, mapAbsent_mapAbsent]
          | some l3 =>
            simp only [mergeOProps_some_none, mergeOProps_none_some, mergeOProps_some_some,
              OptProps.some.injEq]
            exact mergeProps_absent_both c (hs1 l1 rfl) (hs3 l3 rfl)
              (fun x hx => mwf_ss (hc1 l1 x rfl hx)) (fun x hx => mwf_ss (hc3 l3 x rfl hx))
        | some l2 =>
          cases p3 with
          | none =>
            simp only [mergeOProps_some_some, mergeOProps_some_none, OptProps.some.injEq]
            exact (mergeProps_absent_right c (hs1 l1 rfl) (hs2 l2 rfl)
              (fun x hx => mwf_ss (hc1 l1 x rfl hx)) (fun x hx => mwf_ss (hc2 l2 x rfl hx))).symm
          | some l3 =>
            simp only [mergeOProps_some_some, OptProps.some.injEq]
            refine Props.ext_sorted
              (mergeProps_sorted c (mergeProps_sorted c (hs1 l1 rfl) (hs2 l2 rfl)) (hs3 l3 rfl))
              (mergeProps_sorted c (hs1 l1 rfl) (mergeProps_sorted c (hs2 l2 rfl) (hs3 l3 rfl)))
              (fun k => ?_)
            rw [mergeProps_lookup c (mergeProps_sorted c (hs1 l1 rfl) (hs2 l2 rfl)) (hs3 l3 rfl) k,
              mergeProps_lookup c (hs1 l1 rfl) (hs2 l2 rfl) k,
              mergeProps_lookup c (hs1 l1 rfl) (mergeProps_sorted c (hs2 l2 rfl) (hs3 l3 rfl)) k,
              mergeProps_lookup c (hs2 l2 rfl) (hs3 l3 rfl) k]
            cases hx1 : l1.lookup k with
            | none =>
              cases hx2 : l2.lookup k with
              | none =>
                cases hx3 : l3.lookup k with
                | none => rfl
                | some z => simp [combine2, setAbsent_setAbsent]
              | some w =>
                cases hx3 : l3.lookup k with
                | none => simp [combine2, setAbsent_setAbsent]
                | some z =>
                  simp only [combine2, Option.some.injEq]
                  exact merge_absent_left c w z (mwf_ss (hc2 l2 w rfl (Props.lookup_hasVal hx2)))
                    (mwf_ss (hc3 l3 z rfl (Props.lookup_hasVal hx3)))
            | some u =>
              cases hx2 : l2.lookup k with
              | none =>
                cases hx3 : l3.lookup k with
                | none => simp [combine2, setAbsent_setAbsent]
                | some z =>
                  simp only [combine2, Option.some.injEq]
                  rw [merge_absent_left c u z (mwf_ss (hc1 l1 u rfl (Props.lookup_hasVal hx1)))
                      (mwf_ss (hc3 l3 z rfl (Props.lookup_hasVal hx3))),
                    merge_absent_right c u z (mwf_ss (hc1 l1 u rfl (Props.lookup_hasVal hx1)))
                      (mwf_ss (hc3 l3 z rfl (Props.lookup_hasVal hx3)))]
              | some w =>
                cases hx3 : l3.lookup k with
                | none =>
                  simp only [combine2, Option.some.injEq]
                  exact (merge_absent_right c u w
                    (mwf_ss (hc1 l1 u rfl (Props.lookup_hasVal hx1)))
                    (mwf_ss (hc2 l2 w rfl (Props.lookup_hasVal hx2)))).symm
                | some z =>
                  simp only [combine2, Option.some.injEq]
                  have hu := Props.hasVal_size (Props.lookup_hasVal hx1)
                  have hw := Props.hasVal_size (Props.lookup_hasVal hx2)
                  have hz := Props.hasVal_size (Props.lookup_hasVal hx3)
                  simp only [OptProps.size] at hs
                  exact ih u w z na nb nd (by omega)
                    (hc1 l1 u rfl (Props.lookup_hasVal hx1))
                    (hc2 l2 w rfl (Props.lookup_hasVal hx2))
                    (hc3 l3 z rfl (Props.lookup_hasVal hx3)) hbound
    · -- array items associate
      cases hcai : c.consider_array_items with
      | false => simp only [Bool.false_and, Bool.false_eq_true, if_false]
      | true =>
        have ha2n : m2.array = false → a2 = .none := by
          intro hm
          cases a2 with
          | none => rfl
          | some x => rw [harr2 x rfl] at hm; exact absurd hm (by simp)
        have ha3n : m3.array = false → a3 = .none := by
          intro hm
          cases a3 with
          | none => rfl
          | some x => rw [harr3 x rfl] at hm; exact absurd hm (by simp)
        cases hm2 : m2.array with
        | true =>
          cases hm3 : m3.array with
          | true =>
            simp only [TypeMask.or_array, hm2, hm3, Bool.or_true, Bool.true_or, Bool.and_true,
              Bool.true_and, if_true]
            cases a1 with
            | none =>
              cases a2 with
              | none => cases a3 <;> rfl
              | some w => cases a3 <;> rfl
            | some u =>
              cases a2 with
              | none => cases a3 <;> rfl
              | some w =>
                cases a3 with
                | none => rfl
                | some z =>
                  simp only [combineItems, OptSchema.some.injEq]
                  simp only [OptSchema.size] at hs
                  exact ih u w z na nb nd (by omega) (hch1 u rfl) (hch2 w rfl) (hch3 z rfl)
                    hbound
          | false =>
            rw [ha3n hm3]
            simp only [TypeMask.or_array, hm2, hm3, Bool.or_true, Bool.true_or, Bool.or_false,
              Bool.and_true, Bool.true_and, Bool.and_false, Bool.false_eq_true, if_false,
              if_true]
        | false =>
          cases hm3 : m3.array with
          | true =>
            rw [ha2n hm2]
            simp only [TypeMask.or_array, hm2, hm3, Bool.or_true, Bool.true_or, Bool.or_false,
              Bool.false_or, Bool.and_true, Bool.true_and, Bool.and_false, Bool.false_eq_true,
              if_false, if_true]
            have hni : combineItems c .none a3 = a3 := by cases a3 <;> rfl
            rw [hni]
          | false =>
            rw [ha2n hm2, ha3n hm3]
            simp only [TypeMask.or_array, hm2, hm3, Bool.or_false, Bool.false_or, Bool.and_true,
              Bool.true_and, Bool.and_false, Bool.false_and, Bool.false_eq_true, if_false]

/-- C2 counterexample: three valid one-key object schemas (bounds checked
by `Schema.validB` with `max_object_keys = 1`) for which the two
associations differ across the LARGE_OBJECT cutoff — `(a⊕b)⊕c` collapses
to LARGE_OBJECT while `a⊕(b⊕c)` keeps OBJECT. -/
theorem c2_counterexample :
    Schema.validB 1 100 50 sObjA = true ∧ Schema.validB 1 100 50 sObjB = true ∧
    Schema.validB 1 100 50 sObjC = true ∧
    (Schema.merge cfgK1 (Schema.merge cfgK1 sObjA sObjB) sObjC).type_mask.largeObj = true ∧
    (Schema.merge cfgK1 sObjA (Schema.merge cfgK1 sObjB sObjC)).type_mask.largeObj = false ∧
    (Schema.merge cfgK1 sObjA (Schema.merge cfgK1 sObjB sObjC)).type_mask.object = true := by
  decide

/-- C2 (amended): `Schema::merge` is associative for schemas that carry no
STRING_SET tag and no `string_values` payload anywhere, whose `array_items`
occur only under an ARRAY tag and only when `consider_array_items` is
enabled, and whose per-node key bounds sum to at most `max_object_keys`
(so the one-sided LARGE_OBJECT cutoff cannot fire in either association) —
under any configuration. -/
theorem c2_merge_assoc (c : Config) (a b d : Schema) (na nb nd : Nat)
    (ha : MWf c.consider_array_items na a) (hb : MWf c.consider_array_items nb b)
    (hd : MWf c.consider_array_items nd d)
    (hbound : na + nb + nd ≤ c.max_object_keys) :
    Schema.merge c (Schema.merge c a b) d = Schema.merge c a (Schema.merge c b d) :=
  merge_assoc_core c (Schema.size a + Schema.size b + Schema.size d) a b d na nb nd le_rfl
    ha hb hd hbound

/-- C2 witness: associativity applied at three concrete atomic schemas. -/
theorem c2_witness :
    MWf cfgDef.consider_array_items 0 sI64 ∧ MWf cfgDef.consider_array_items 0 sStr ∧
    MWf cfgDef.consider_array_items 0 sNull ∧ 0 + 0 + 0 ≤ cfgDef.max_object_keys ∧
    Schema.merge cfgDef (Schema.merge cfgDef sI64 sStr) sNull =
      Schema.merge cfgDef sI64 (Schema.merge cfgDef sStr sNull) := by
  have h1 : MWf cfgDef.consider_array_items 0 sI64 := mwf_atom _ _ _ rfl
  have h2 : MWf cfgDef.consider_array_items 0 sStr := mwf_atom _ _ _ rfl
  have h3 : MWf cfgDef.consider_array_items 0 sNull := mwf_atom _ _ _ rfl
  exact ⟨h1, h2, h3, by omega, c2_merge_assoc cfgDef sI64 sStr sNull 0 0 0 h1 h2 h3 (by omega)⟩

end SchemaSpec
